import Mathlib

/-!
# go-ds-versioning: migration builder and version-gated state store

A shallow embedding of `pkg/builder/builder.go` and `pkg/statestore/statestore.go`.

* Go slices are modelled with their aliasing: a slice is a header `(ptr, len, cap)` into a
  heap of backing arrays, and `append` writes in place when there is spare capacity.
* `reflect.Type`, `reflect.Value`, `validate.CheckMigration` and the capacity that the
  runtime gives a slice it grows are parameters of the builder.
* The underlying `*statestore.StateStore` is a parameter of the gated layer; every call made
  on it is recorded in a trace.
-/

namespace Versioning

/-! ## Go slices of `query.Filter` -/

/-- The two comparison operators of `query.FilterKeyCompare` that the builder constructs. -/
inductive Op where
  | Equal
  | NotEqual
  deriving DecidableEq, Repr

/-- The clause `query.FilterKeyCompare{Key, Op}`. -/
structure FilterKeyCompare where
  Op : Versioning.Op
  Key : String
  deriving DecidableEq, Repr

/-- A value of interface type `query.Filter`: `none` is the nil interface (the zero value
of an array cell that was never written). -/
abbrev Filter := Option FilterKeyCompare

/-- The heap of backing arrays of `[]query.Filter` slices; an array never changes length. -/
abbrev Heap := List (List Filter)

/-- A slice header: backing array, length and capacity. -/
structure Slice where
  ptr : Nat
  len : Nat
  cap : Nat
  deriving DecidableEq, Repr

/-- The nil slice, the zero value of the `filters` field. -/
def Slice.nil : Slice := ⟨0, 0, 0⟩

/-- The elements a slice header denotes in a heap. -/
def Heap.read (h : Heap) (s : Slice) : List Filter :=
  (h.getD s.ptr []).take s.len

/-- The nominal growth of the Go runtime when `append` of one element finds the slice full:
one for an empty slice, doubling below 256 elements, growth by a quarter (plus 192) above.
The runtime then rounds the capacity up to an allocation size class, so the capacity it
really gives depends on its version and departs from this one for larger slices (71
instead of 64 after 32 interface values); for a slice of interface values grown from nil
the first capacities 1, 2, 4 are those of the runtime. The builder therefore takes the
growth as a parameter, and this function is only the growth of the concrete scenarios. -/
def growslice (oldCap : Nat) : Nat :=
  if oldCap = 0 then 1
  else if oldCap < 256 then oldCap + oldCap
  else oldCap + (oldCap + 768) / 4

/-- The Go builtin `append(s, x)`: with spare capacity the element is written into the
shared backing array at index `len`; otherwise a new array is allocated, of the capacity
`grow s.cap` that the runtime chooses, the elements are copied and the old array is left
alone. -/
def append (grow : Nat → Nat) (h : Heap) (s : Slice) (x : FilterKeyCompare) : Heap × Slice :=
  if s.len < s.cap then
    (h.set s.ptr ((h.getD s.ptr []).set s.len (some x)), ⟨s.ptr, s.len + 1, s.cap⟩)
  else
    let newcap := grow s.cap
    (h ++ [h.read s ++ [some x] ++ List.replicate (newcap - (s.len + 1)) none],
      ⟨h.length, s.len + 1, newcap⟩)

/-- The loop `for _, key := range keys { newFilters = append(newFilters,
query.FilterKeyCompare{Key: key, Op: op}) }` of `FilterKeys` and `Only`. -/
def appendKeys (grow : Nat → Nat) (op : Op) (h : Heap) (newFilters : Slice)
    (keys : List String) : Heap × Slice :=
  keys.foldl (fun (acc : Heap × Slice) key => append grow acc.1 acc.2 ⟨op, key⟩)
    (h, newFilters)

/-! ## The builder -/

/-- A Go `error`, identified by its message. -/
abbrev GoError := String

/-- The facilities of Go and of the repository that the builder relies on:
`validate.CheckMigration`, which returns the argument type and the result type of a
migration function or an error; `reflect.Type.AssignableTo` (`AssignableTo v t` is
`v.AssignableTo(t)`); and the capacity the runtime gives a full slice that `append` has to
grow, which exceeds the old capacity. -/
structure Reflect (Ty Fn : Type) where
  CheckMigration : Fn → Except GoError (Ty × Ty)
  AssignableTo : Ty → Ty → Bool
  growslice : Nat → Nat
  grows : ∀ oldCap, oldCap < growslice oldCap

/-- The struct `migrationBuilder`; a `reflect.Value` is `none` (the zero Value) or the
function it wraps. -/
structure migrationBuilder (Ty Fn : Type) where
  oldType : Ty
  newType : Ty
  upFunc : Option Fn
  filters : Slice
  isReversible : Bool
  downFunc : Option Fn
  deriving DecidableEq, Repr

/-- The struct `errorBuilder`. -/
structure errorBuilder where
  err : GoError
  deriving DecidableEq, Repr

/-- The interface `Builder` with its two implementations. -/
inductive Builder (Ty Fn : Type) where
  | mb (b : migrationBuilder Ty Fn)
  | eb (b : errorBuilder)
  deriving DecidableEq, Repr

/-- The struct `query.Query`, of which the builder sets `Filters` only. -/
structure Query where
  Filters : Slice
  deriving DecidableEq, Repr

/-- The struct `dsMigration`. -/
structure dsMigration (Ty Fn : Type) where
  query : Query
  oldType : Ty
  newType : Ty
  upFunc : Option Fn
  deriving DecidableEq, Repr

/-- The struct `reversibleDsMigration`, which embeds `dsMigration`. -/
structure reversibleDsMigration (Ty Fn : Type) extends dsMigration Ty Fn where
  downFunc : Option Fn
  deriving DecidableEq, Repr

/-- The interface value `versioning.DatastoreMigration` returned by `Build`: a
`*dsMigration`, which has `Up` only, or a `*reversibleDsMigration`, which has `Up` and
`Down`. -/
inductive DatastoreMigration (Ty Fn : Type) where
  | base (dm : dsMigration Ty Fn)
  | reversible (rdm : reversibleDsMigration Ty Fn)
  deriving DecidableEq, Repr

variable {Ty Fn : Type}

/-- The method `migrationBuilder.Reversible`. -/
def migrationBuilder.Reversible (R : Reflect Ty Fn) (mb : migrationBuilder Ty Fn) (down : Fn) :
    Builder Ty Fn :=
  match R.CheckMigration down with
  | .error err => .eb ⟨err⟩
  | .ok (reversibleNewType, reversibleOldType) =>
    if !R.AssignableTo mb.oldType reversibleOldType
        || !R.AssignableTo mb.newType reversibleNewType then
      .eb ⟨"reversible function does not have inverse types"⟩
    else
      .mb ⟨mb.oldType, mb.newType, mb.upFunc, mb.filters, true, some down⟩

/-- The method `migrationBuilder.FilterKeys`. -/
def migrationBuilder.FilterKeys (R : Reflect Ty Fn) (h : Heap) (mb : migrationBuilder Ty Fn)
    (keys : List String) : Heap × Builder Ty Fn :=
  let r := appendKeys R.growslice .NotEqual h mb.filters keys
  (r.1, .mb ⟨mb.oldType, mb.newType, mb.upFunc, r.2, mb.isReversible, mb.downFunc⟩)

/-- The method `migrationBuilder.Only`. -/
def migrationBuilder.Only (R : Reflect Ty Fn) (h : Heap) (mb : migrationBuilder Ty Fn)
    (keys : List String) : Heap × Builder Ty Fn :=
  let r := appendKeys R.growslice .Equal h mb.filters keys
  (r.1, .mb ⟨mb.oldType, mb.newType, mb.upFunc, r.2, mb.isReversible, mb.downFunc⟩)

/-- The method `migrationBuilder.Build`: the migration, and a nil error. -/
def migrationBuilder.Build (mb : migrationBuilder Ty Fn) :
    Option (DatastoreMigration Ty Fn) × Option GoError :=
  let baseMigration : dsMigration Ty Fn :=
    { query := ⟨mb.filters⟩, oldType := mb.oldType, newType := mb.newType, upFunc := mb.upFunc }
  if !mb.isReversible then
    (some (.base baseMigration), none)
  else
    (some (.reversible { baseMigration with downFunc := mb.downFunc }), none)

/-- The method `errorBuilder.Reversible`. -/
def errorBuilder.Reversible (eb : errorBuilder) (_down : Fn) : Builder Ty Fn := .eb eb

/-- The method `errorBuilder.FilterKeys`. -/
def errorBuilder.FilterKeys (eb : errorBuilder) (_keys : List String) : Builder Ty Fn := .eb eb

/-- The method `errorBuilder.Only`. -/
def errorBuilder.Only (eb : errorBuilder) (_keys : List String) : Builder Ty Fn := .eb eb

/-- The method `errorBuilder.Build`: no migration, and the captured error. -/
def errorBuilder.Build (eb : errorBuilder) :
    Option (DatastoreMigration Ty Fn) × Option GoError :=
  (none, some eb.err)

/-- Interface dispatch of `Builder.Reversible`. -/
def Builder.Reversible (R : Reflect Ty Fn) (b : Builder Ty Fn) (down : Fn) : Builder Ty Fn :=
  match b with
  | .mb m => m.Reversible R down
  | .eb e => e.Reversible down

/-- Interface dispatch of `Builder.FilterKeys`. -/
def Builder.FilterKeys (R : Reflect Ty Fn) (h : Heap) (b : Builder Ty Fn)
    (keys : List String) : Heap × Builder Ty Fn :=
  match b with
  | .mb m => m.FilterKeys R h keys
  | .eb e => (h, e.FilterKeys keys)

/-- Interface dispatch of `Builder.Only`. -/
def Builder.Only (R : Reflect Ty Fn) (h : Heap) (b : Builder Ty Fn) (keys : List String) :
    Heap × Builder Ty Fn :=
  match b with
  | .mb m => m.Only R h keys
  | .eb e => (h, e.Only keys)

/-- Interface dispatch of `Builder.Build`. -/
def Builder.Build (b : Builder Ty Fn) : Option (DatastoreMigration Ty Fn) × Option GoError :=
  match b with
  | .mb m => m.Build
  | .eb e => e.Build

/-- The function `NewMigrationBuilder`; the new builder has the nil slice of filters, is not
reversible and has the zero `reflect.Value` as down-function. -/
def NewMigrationBuilder (R : Reflect Ty Fn) (up : Fn) : Builder Ty Fn :=
  match R.CheckMigration up with
  | .error err => .eb ⟨err⟩
  | .ok (oldType, newType) =>
    .mb { oldType := oldType, newType := newType, upFunc := some up, filters := Slice.nil,
          isReversible := false, downFunc := none }

/-- One configuration call of a builder chain. -/
inductive Call (Fn : Type) where
  | Reversible (down : Fn)
  | FilterKeys (keys : List String)
  | Only (keys : List String)
  deriving DecidableEq, Repr

/-- A configuration call applied to a builder in a heap. -/
def Builder.call (R : Reflect Ty Fn) (s : Heap × Builder Ty Fn) : Call Fn → Heap × Builder Ty Fn
  | .Reversible down => (s.1, s.2.Reversible R down)
  | .FilterKeys keys => s.2.FilterKeys R s.1 keys
  | .Only keys => s.2.Only R s.1 keys

/-- A chain of configuration calls `b.c1(..).c2(..)...`, left to right. -/
def Builder.chain (R : Reflect Ty Fn) (s : Heap × Builder Ty Fn) (cs : List (Call Fn)) :
    Heap × Builder Ty Fn :=
  cs.foldl (Builder.call R) s

/-! ## The executor and the migrations that run it -/

/-- Raw record payload. -/
abbrev Bytes := List Nat

/-- The content of a datastore, in the store's native key order. -/
abbrev Datastore := List (String × Bytes)

/-- The external collaborators of the executor: the record codec (decoding as a kind,
encoding), the call of a `reflect.Value` holding a migration function, and the write of a
key in a destination store (`none` is a failed write). -/
structure Records (Ty Fn Val : Type) where
  decode : Ty → Bytes → Option Val
  encode : Val → Option Bytes
  call : Option Fn → Val → Except GoError Val
  put : Datastore → String → Bytes → Option Datastore

/-- The failures of one executor run. -/
inductive ExecuteError where
  | RecordDecodeError (key : String)
  | TransformError (key : String) (cause : GoError)
  | RecordEncodeError (key : String)
  | WriteError (key : String)
  | Cancelled
  deriving DecidableEq, Repr

/-- Modelled from the spec: the meaning of a filter clause (`query.FilterKeyCompare.Filter`,
which the executor in internal/migrate applies through the store's query; neither is among the
source files). An include-only clause holds of its own key only, an exclude clause of
every other key. -/
def FilterKeyCompare.Filter (f : FilterKeyCompare) (key : String) : Bool :=
  match f.Op with
  | .Equal => key == f.Key
  | .NotEqual => key != f.Key

/-- Modelled from the spec: a key filter is the conjunction of its clauses (section 3, "Key
filter"). A nil clause cannot be evaluated and lets no key through. -/
def Query.accepts (h : Heap) (q : Query) (key : String) : Bool :=
  (h.read q.Filters).all fun c =>
    match c with
    | some f => f.Filter key
    | none => false

/-- Modelled from the spec: the entries of `source` that the executor enumerates, those whose
key passes the filter, in the store's native key order (section 4.2, first item). -/
def Query.results (h : Heap) (q : Query) (source : Datastore) : Datastore :=
  source.filter fun e => q.accepts h e.1

/-- Modelled from the spec: the per-key sequence of `migrate.Execute` (internal/migrate, not
among the source files), section 4.2: cancellation is observed between keys (`ctx n` tells
whether it is observed once `n` keys are done); then read, decode as the source kind,
transform, encode, write to the same key of the destination, and record the key. Any failure
aborts and keeps the writes already made. -/
def executeKeys {Val : Type} (X : Records Ty Fn Val) (ctx : Nat → Bool) (sourceKind : Ty)
    (transformFn : Option Fn) :
    Datastore → Nat → Datastore → List String → Datastore × List String × Option ExecuteError
  | [], _, dest, touched => (dest, touched, none)
  | (key, raw) :: rest, n, dest, touched =>
    if ctx n then (dest, touched, some .Cancelled)
    else
      match X.decode sourceKind raw with
      | none => (dest, touched, some (.RecordDecodeError key))
      | some record =>
        match X.call transformFn record with
        | .error cause => (dest, touched, some (.TransformError key cause))
        | .ok migrated =>
          match X.encode migrated with
          | none => (dest, touched, some (.RecordEncodeError key))
          | some bytes =>
            match X.put dest key bytes with
            | none => (dest, touched, some (.WriteError key))
            | some dest1 =>
              executeKeys X ctx sourceKind transformFn rest (n + 1) dest1 (touched ++ [key])

/-- Modelled from the spec: `migrate.Execute(ctx, filter, source, dest, sourceKind,
transformFn)` (internal/migrate, not among the source files), section 4.2. The result is the
destination store after the run, the touched-key list and the error. -/
def Execute {Val : Type} (X : Records Ty Fn Val) (ctx : Nat → Bool) (h : Heap) (q : Query)
    (source dest : Datastore) (sourceKind : Ty) (transformFn : Option Fn) :
    Datastore × List String × Option ExecuteError :=
  executeKeys X ctx sourceKind transformFn (q.results h source) 0 dest []

/-- The method `dsMigration.Up`. -/
def dsMigration.Up {Val : Type} (X : Records Ty Fn Val) (ctx : Nat → Bool) (h : Heap)
    (dm : dsMigration Ty Fn) (oldDs newDS : Datastore) :
    Datastore × List String × Option ExecuteError :=
  Execute X ctx h dm.query oldDs newDS dm.oldType dm.upFunc

/-- The method `reversibleDsMigration.Down`. -/
def reversibleDsMigration.Down {Val : Type} (X : Records Ty Fn Val) (ctx : Nat → Bool)
    (h : Heap) (rdm : reversibleDsMigration Ty Fn) (newDs oldDs : Datastore) :
    Datastore × List String × Option ExecuteError :=
  Execute X ctx h rdm.query newDs oldDs rdm.newType rdm.downFunc

/-- The `dsMigration` part of a built migration; `Up` of either implementation is the
method of this part. -/
def DatastoreMigration.ds : DatastoreMigration Ty Fn → dsMigration Ty Fn
  | .base dm => dm
  | .reversible rdm => rdm.todsMigration

/-- Interface dispatch of `DatastoreMigration.Up`. -/
def DatastoreMigration.Up {Val : Type} (X : Records Ty Fn Val) (ctx : Nat → Bool) (h : Heap)
    (m : DatastoreMigration Ty Fn) (oldDs newDS : Datastore) :
    Datastore × List String × Option ExecuteError :=
  m.ds.Up X ctx h oldDs newDS

/-- Whether the migration has the method `Down`. -/
def DatastoreMigration.hasDown : DatastoreMigration Ty Fn → Bool
  | .base _ => false
  | .reversible _ => true

/-- The filter clauses of a built migration, read from the heap. -/
def DatastoreMigration.filters (h : Heap) (m : DatastoreMigration Ty Fn) : List Filter :=
  h.read m.ds.query.Filters

/-- The keys of `source` that a run of the migration enumerates and hence processes. -/
def DatastoreMigration.processed (h : Heap) (m : DatastoreMigration Ty Fn)
    (source : Datastore) : List String :=
  (m.ds.query.results h source).map Prod.fst

/-! ## The version-gated state store -/

/-- A call received by the underlying `*statestore.StateStore` or by one of the
`*statestore.StoredState` handles it gave out, with its arguments. -/
inductive StoreCall (V H : Type) where
  | Begin (i state : V)
  | Get (i : V)
  | Has (i : V)
  | List (out : V)
  | StoredEnd (handle : H)
  | StoredGet (handle : H) (out : V)
  | StoredMutate (handle : H) (mutator : V)
  deriving DecidableEq, Repr

/-- The log of the calls received by the underlying state store. -/
abbrev Calls (V H : Type) := List (StoreCall V H)

/-- The underlying state store of go-statestore and its handles, as transformers of the
store's state `σ`; `V` is a Go `interface{}` argument, `H` a `*statestore.StoredState` and
`E` an `error`. -/
structure StateStore (σ V H E : Type) where
  Begin : σ → V → V → σ × Option E
  Get : σ → V → σ × H
  Has : σ → V → σ × (Bool × Option E)
  StoredEnd : σ → H → σ × Option E
  StoredGet : σ → H → V → σ × Option E
  StoredMutate : σ → H → V → σ × Option E
  List : σ → V → σ × Option E

/-- The object behind the pointer `ss *statestore.StateStore`: the store's state and the log
of the calls made on it. -/
structure TracedStore (σ V H : Type) where
  state : σ
  calls : Calls V H
  deriving DecidableEq, Repr

/-- The interface `versioning.MigrationState`, by what `ReadyError()` returns at present. -/
structure MigrationState (E : Type) where
  ReadyError : Option E
  deriving DecidableEq, Repr

/-- The struct `migratedStateStore`. -/
structure migratedStateStore (σ V H E : Type) where
  ss : TracedStore σ V H
  ms : MigrationState E
  deriving DecidableEq, Repr

/-- The interface `StoredState` with its two implementations: `*utils.NotReadyStoredState`
and the handle of the underlying state store. -/
inductive StoredState (H E : Type) where
  | NotReadyStoredState (Err : E)
  | stored (handle : H)
  deriving DecidableEq, Repr

variable {σ V H E : Type}

/-- The call `ss.Begin(i, state)` on the underlying store, logged. -/
def TracedStore.Begin (U : StateStore σ V H E) (ss : TracedStore σ V H) (i state : V) :
    TracedStore σ V H × Option E :=
  (⟨(U.Begin ss.state i state).1, ss.calls ++ [.Begin i state]⟩, (U.Begin ss.state i state).2)

/-- The call `ss.Get(i)` on the underlying store, logged. -/
def TracedStore.Get (U : StateStore σ V H E) (ss : TracedStore σ V H) (i : V) :
    TracedStore σ V H × H :=
  (⟨(U.Get ss.state i).1, ss.calls ++ [.Get i]⟩, (U.Get ss.state i).2)

/-- The call `ss.Has(i)` on the underlying store, logged. -/
def TracedStore.Has (U : StateStore σ V H E) (ss : TracedStore σ V H) (i : V) :
    TracedStore σ V H × (Bool × Option E) :=
  (⟨(U.Has ss.state i).1, ss.calls ++ [.Has i]⟩, (U.Has ss.state i).2)

/-- The call `ss.List(out)` on the underlying store, logged. -/
def TracedStore.List (U : StateStore σ V H E) (ss : TracedStore σ V H) (out : V) :
    TracedStore σ V H × Option E :=
  (⟨(U.List ss.state out).1, ss.calls ++ [.List out]⟩, (U.List ss.state out).2)

/-- The method `migratedStateStore.Begin`. -/
def migratedStateStore.Begin (U : StateStore σ V H E) (mss : migratedStateStore σ V H E)
    (i state : V) : migratedStateStore σ V H E × Option E :=
  match mss.ms.ReadyError with
  | some err => (mss, some err)
  | none => (⟨(mss.ss.Begin U i state).1, mss.ms⟩, (mss.ss.Begin U i state).2)

/-- The method `migratedStateStore.Get`. -/
def migratedStateStore.Get (U : StateStore σ V H E) (mss : migratedStateStore σ V H E)
    (i : V) : migratedStateStore σ V H E × StoredState H E :=
  match mss.ms.ReadyError with
  | some err => (mss, .NotReadyStoredState err)
  | none => (⟨(mss.ss.Get U i).1, mss.ms⟩, .stored (mss.ss.Get U i).2)

/-- The method `migratedStateStore.Has`. -/
def migratedStateStore.Has (U : StateStore σ V H E) (mss : migratedStateStore σ V H E)
    (i : V) : migratedStateStore σ V H E × (Bool × Option E) :=
  match mss.ms.ReadyError with
  | some err => (mss, (false, some err))
  | none => (⟨(mss.ss.Has U i).1, mss.ms⟩, (mss.ss.Has U i).2)

/-- The method `migratedStateStore.List`. -/
def migratedStateStore.List (U : StateStore σ V H E) (mss : migratedStateStore σ V H E)
    (out : V) : migratedStateStore σ V H E × Option E :=
  match mss.ms.ReadyError with
  | some err => (mss, some err)
  | none => (⟨(mss.ss.List U out).1, mss.ms⟩, (mss.ss.List U out).2)

/-- The method `End` of a `StoredState`. Modelled from the spec: for the stand-in handle
`utils.NotReadyStoredState` (internal/utils, not among the source files) the method returns
the handle's error and leaves the store alone (section 4.4). -/
def StoredState.End (U : StateStore σ V H E) (ss : TracedStore σ V H) :
    StoredState H E → TracedStore σ V H × Option E
  | .NotReadyStoredState err => (ss, some err)
  | .stored handle =>
    (⟨(U.StoredEnd ss.state handle).1, ss.calls ++ [.StoredEnd handle]⟩,
      (U.StoredEnd ss.state handle).2)

/-- The method `Get` of a `StoredState`. Modelled from the spec: for the stand-in handle
`utils.NotReadyStoredState` (internal/utils, not among the source files) the method returns
the handle's error and leaves the store alone (section 4.4). -/
def StoredState.Get (U : StateStore σ V H E) (ss : TracedStore σ V H) (out : V) :
    StoredState H E → TracedStore σ V H × Option E
  | .NotReadyStoredState err => (ss, some err)
  | .stored handle =>
    (⟨(U.StoredGet ss.state handle out).1, ss.calls ++ [.StoredGet handle out]⟩,
      (U.StoredGet ss.state handle out).2)

/-- The method `Mutate` of a `StoredState`. Modelled from the spec: for the stand-in handle
`utils.NotReadyStoredState` (internal/utils, not among the source files) the method returns
the handle's error and leaves the store alone (section 4.4). -/
def StoredState.Mutate (U : StateStore σ V H E) (ss : TracedStore σ V H) (mutator : V) :
    StoredState H E → TracedStore σ V H × Option E
  | .NotReadyStoredState err => (ss, some err)
  | .stored handle =>
    (⟨(U.StoredMutate ss.state handle mutator).1, ss.calls ++ [.StoredMutate handle mutator]⟩,
      (U.StoredMutate ss.state handle mutator).2)

/-- Something a client of the gated layer does, or a change of what `ReadyError()` returns.
`StoredEnd n`, `StoredGet n out` and `StoredMutate n mutator` act on the `n`-th handle that
the layer's `Get` has returned so far. -/
inductive LayerEvent (V E : Type) where
  | Begin (i state : V)
  | Get (i : V)
  | Has (i : V)
  | List (out : V)
  | StoredEnd (n : Nat)
  | StoredGet (n : Nat) (out : V)
  | StoredMutate (n : Nat) (mutator : V)
  | SetReadyError (r : Option E)
  deriving DecidableEq, Repr

/-- The gated store together with the handles its `Get` has returned, each with whether
`ReadyError()` was nil when it was returned. -/
structure LayerState (σ V H E : Type) where
  mss : migratedStateStore σ V H E
  handles : List (StoredState H E × Bool)

/-- The state of a fresh client: no handle yet. -/
def LayerState.init (mss : migratedStateStore σ V H E) : LayerState σ V H E :=
  ⟨mss, []⟩

/-- One event performed on the gated store; an operation on a handle that does not exist
changes nothing. -/
def LayerState.step (U : StateStore σ V H E) (s : LayerState σ V H E) :
    LayerEvent V E → LayerState σ V H E
  | .Begin i state => ⟨(s.mss.Begin U i state).1, s.handles⟩
  | .Get i =>
    ⟨(s.mss.Get U i).1, s.handles ++ [((s.mss.Get U i).2, s.mss.ms.ReadyError.isNone)]⟩
  | .Has i => ⟨(s.mss.Has U i).1, s.handles⟩
  | .List out => ⟨(s.mss.List U out).1, s.handles⟩
  | .StoredEnd n =>
    match s.handles.get? n with
    | some hd => ⟨⟨(hd.1.End U s.mss.ss).1, s.mss.ms⟩, s.handles⟩
    | none => s
  | .StoredGet n out =>
    match s.handles.get? n with
    | some hd => ⟨⟨(hd.1.Get U s.mss.ss out).1, s.mss.ms⟩, s.handles⟩
    | none => s
  | .StoredMutate n mutator =>
    match s.handles.get? n with
    | some hd => ⟨⟨(hd.1.Mutate U s.mss.ss mutator).1, s.mss.ms⟩, s.handles⟩
    | none => s
  | .SetReadyError r => ⟨⟨s.mss.ss, ⟨r⟩⟩, s.handles⟩

/-- Whether the event is an operation of the layer or of a handle (not a change of
readiness). -/
def LayerEvent.isOperation : LayerEvent V E → Bool
  | .SetReadyError _ => false
  | _ => true

/-- Whether performing the event reaches the underlying state store: the log of calls
grows. -/
def LayerState.reaches (U : StateStore σ V H E) (s : LayerState σ V H E)
    (ev : LayerEvent V E) : Prop :=
  (s.step U ev).mss.ss.calls ≠ s.mss.ss.calls

/-- Along a sequence of events, no operation performed while `ReadyError()` is non-nil
reaches the underlying store. -/
def LayerState.gated (U : StateStore σ V H E) :
    LayerState σ V H E → List (LayerEvent V E) → Prop
  | _, [] => True
  | s, ev :: rest =>
    (ev.isOperation = true → s.mss.ms.ReadyError ≠ none → ¬ s.reaches U ev) ∧
      LayerState.gated U (s.step U ev) rest

/-- The handle an event operates on, if it is an operation on a handle. -/
def LayerEvent.handleIndex : LayerEvent V E → Option Nat
  | .StoredEnd n => some n
  | .StoredGet n _ => some n
  | .StoredMutate n _ => some n
  | _ => none

/-- Along a sequence of events, no operation of the layer itself performed while
`ReadyError()` is non-nil reaches the underlying store, and no operation, at any time, on a
handle that the layer's `Get` returned while `ReadyError()` was non-nil reaches it. -/
def LayerState.gatedAtIssue (U : StateStore σ V H E) :
    LayerState σ V H E → List (LayerEvent V E) → Prop
  | _, [] => True
  | s, ev :: rest =>
    (ev.isOperation = true → ev.handleIndex = none → s.mss.ms.ReadyError ≠ none →
        ¬ s.reaches U ev) ∧
      (∀ n hd, ev.handleIndex = some n → s.handles.get? n = some (hd, false) →
        ¬ s.reaches U ev) ∧
      LayerState.gatedAtIssue U (s.step U ev) rest

/-! ## The versioned state store -/

/-- The type `versioning.VersionKey`, a string. -/
abbrev VersionKey := String

/-- A reference to a datastore: `root` is the datastore `ds` that `NewVersionedStateStore`
is given, and `Wrap child key` is `namespace.Wrap(child, key)`, the same datastore seen
under a namespace. -/
inductive DatastoreRef (K : Type) where
  | root
  | Wrap (child : DatastoreRef K) (key : K)
  deriving DecidableEq, Repr

/-- A pointer `*statestore.StateStore`, by the datastore the state store is over. -/
structure StateStorePtr (K : Type) where
  ds : DatastoreRef K
  deriving DecidableEq, Repr

/-- The function `statestore.New`. -/
def StateStorePtr.New {K : Type} (ds : DatastoreRef K) : StateStorePtr K := ⟨ds⟩

/-- Modelled from the spec: a runner object of internal/runner (not among the source files).
It holds the datastore it works on, the versioned migration list, an ordered sequence of
pairs of a version key and a migration, the target version (section 4.3) and the function
that runs its steps, and it caches the ready flag of the migration state (section 3). -/
structure Runner (K M MF : Type) where
  ds : DatastoreRef K
  migrations : List (VersionKey × M)
  target : VersionKey
  migrate : MF
  ready : Bool
  deriving DecidableEq, Repr

/-- Modelled from the spec: `runner.NewRunner(ds, migrations, target, migrate)` (internal/runner,
not among the source files) makes a runner that holds exactly its arguments. It is not
ready: before `Migrate` completes the gated layer refuses every operation (section 8,
gating). -/
def NewRunner {K M MF : Type} (ds : DatastoreRef K) (migrations : List (VersionKey × M))
    (target : VersionKey) (migrate : MF) : Runner K M MF :=
  ⟨ds, migrations, target, migrate, false⟩

/-- The foreign parts `NewVersionedStateStore` is wired from, over the content `D` of the
datastore `ds`: `migrate.To`; the read of the persisted version marker; the error value
`NotMigratedError` of a current and a target version; the walk along the migration list
that `Migrate` performs (section 4.3, steps 1 to 5), with the content it leaves and its
error; `datastore.NewKey`; and the operations of the state store `statestore.New(ref)`, as
transformers of the content of `ds`. -/
structure Wiring (D K M MF V H E : Type) where
  To : MF
  marker : D → Option VersionKey
  NotMigratedError : Option VersionKey → VersionKey → E
  run : Runner K M MF → D → D × Option E
  NewKey : String → K
  New : DatastoreRef K → StateStore D V H E

/-- Modelled from the spec: the current version of the store (section 4.3, step 1 of
`Migrate`, and section 6): the persisted marker, whose absence means the first entry of the
list. -/
def Runner.current {D K M MF : Type} (marker : D → Option VersionKey) (content : D)
    (r : Runner K M MF) : Option VersionKey :=
  match marker content with
  | some v => some v
  | none => r.migrations.head?.map Prod.fst

/-- Modelled from the spec: `Runner.ReadyError()` (internal/runner, not among the source
files): nothing once the runner is ready, otherwise the error `NotMigratedError` of the
current and the target version (sections 3 and 4.3). It is evaluated on the runner object
and the content of the datastore at the moment of the call. -/
def Runner.ReadyError {D K M MF V H E : Type} (W : Wiring D K M MF V H E) (content : D)
    (r : Runner K M MF) : Option E :=
  if r.ready then none
  else some (W.NotMigratedError (r.current W.marker content) r.target)

/-- Modelled from the spec: `Runner.Migrate(ctx)` (internal/runner, not among the source
files), section 4.3: it performs the walk and returns its error. A walk that succeeds has
brought the store to the target, and the runner is ready from then on; after a walk that
fails `ReadyError()` continues to report not-ready (step 5). -/
def Runner.Migrate {D K M MF V H E : Type} (W : Wiring D K M MF V H E) (content : D)
    (r : Runner K M MF) : (Runner K M MF × D) × Option E :=
  (({ r with ready := (W.run r content).2.isNone }, (W.run r content).1), (W.run r content).2)

/-- The objects that the values returned by `NewVersionedStateStore` point to: the content
of the datastore `ds`, the runner objects allocated so far, by address, and the log of the
calls received by the state store. -/
structure World (D K M MF V H : Type) where
  ds : D
  runners : List (Runner K M MF)
  calls : Calls V H

/-- The pointer `*migratedStateStore` that `NewMigratedStateStore` returns, by what its
fields point to: `ss` is the state store and `ms` the address of the runner that is asked
`ReadyError()`. -/
structure migratedStateStorePtr (K : Type) where
  ss : StateStorePtr K
  ms : Nat
  deriving DecidableEq, Repr

/-- The function `NewMigratedStateStore`. -/
def NewMigratedStateStore {K : Type} (ss : StateStorePtr K) (ms : Nat) :
    migratedStateStorePtr K :=
  ⟨ss, ms⟩

/-- The method value `r.Migrate`, by the address of the runner `r` it is bound to. -/
structure MigrateFunc where
  r : Nat
  deriving DecidableEq, Repr

/-- The function `NewVersionedStateStore`, in a world: it allocates one runner, and returns
the gated store and the function to run the migrations, which both point to it. -/
def NewVersionedStateStore {D K M MF : Type} (W : Wiring D K M MF V H E)
    (w : World D K M MF V H) (migrations : List (VersionKey × M)) (target : VersionKey) :
    World D K M MF V H × migratedStateStorePtr K × MigrateFunc :=
  let r := w.runners.length
  let w1 : World D K M MF V H :=
    ⟨w.ds, w.runners ++ [NewRunner .root migrations target W.To], w.calls⟩
  let ss := StateStorePtr.New (.Wrap .root (W.NewKey target))
  (w1, NewMigratedStateStore ss r, ⟨r⟩)

/-- The struct behind a `*migratedStateStore` as an operation finds it: the state store
over the present content of the datastore, and the migration state whose `ReadyError()` is
the one of the runner pointed to, evaluated now. There is none if the address is not the
one of a runner. -/
def migratedStateStorePtr.load {D K M MF : Type} (W : Wiring D K M MF V H E)
    (w : World D K M MF V H) (p : migratedStateStorePtr K) :
    Option (migratedStateStore D V H E) :=
  match w.runners.get? p.ms with
  | none => none
  | some r => some ⟨⟨w.ds, w.calls⟩, ⟨r.ReadyError W w.ds⟩⟩

/-- The method `Begin` called through the pointer, in a world. -/
def migratedStateStorePtr.Begin {D K M MF : Type} (W : Wiring D K M MF V H E)
    (w : World D K M MF V H) (p : migratedStateStorePtr K) (i state : V) :
    Option (World D K M MF V H × Option E) :=
  match p.load W w with
  | none => none
  | some mss =>
    some (⟨(mss.Begin (W.New p.ss.ds) i state).1.ss.state, w.runners,
        (mss.Begin (W.New p.ss.ds) i state).1.ss.calls⟩,
      (mss.Begin (W.New p.ss.ds) i state).2)

/-- The method `Get` called through the pointer, in a world. -/
def migratedStateStorePtr.Get {D K M MF : Type} (W : Wiring D K M MF V H E)
    (w : World D K M MF V H) (p : migratedStateStorePtr K) (i : V) :
    Option (World D K M MF V H × StoredState H E) :=
  match p.load W w with
  | none => none
  | some mss =>
    some (⟨(mss.Get (W.New p.ss.ds) i).1.ss.state, w.runners,
        (mss.Get (W.New p.ss.ds) i).1.ss.calls⟩,
      (mss.Get (W.New p.ss.ds) i).2)

/-- The method `Has` called through the pointer, in a world. -/
def migratedStateStorePtr.Has {D K M MF : Type} (W : Wiring D K M MF V H E)
    (w : World D K M MF V H) (p : migratedStateStorePtr K) (i : V) :
    Option (World D K M MF V H × (Bool × Option E)) :=
  match p.load W w with
  | none => none
  | some mss =>
    some (⟨(mss.Has (W.New p.ss.ds) i).1.ss.state, w.runners,
        (mss.Has (W.New p.ss.ds) i).1.ss.calls⟩,
      (mss.Has (W.New p.ss.ds) i).2)

/-- The method `List` called through the pointer, in a world. -/
def migratedStateStorePtr.List {D K M MF : Type} (W : Wiring D K M MF V H E)
    (w : World D K M MF V H) (p : migratedStateStorePtr K) (out : V) :
    Option (World D K M MF V H × Option E) :=
  match p.load W w with
  | none => none
  | some mss =>
    some (⟨(mss.List (W.New p.ss.ds) out).1.ss.state, w.runners,
        (mss.List (W.New p.ss.ds) out).1.ss.calls⟩,
      (mss.List (W.New p.ss.ds) out).2)

/-- The call of the method value `r.Migrate`, in a world: the runner it is bound to runs
its migrations on the datastore, and the runner object and the content of the datastore
are updated. -/
def MigrateFunc.call {D K M MF : Type} (W : Wiring D K M MF V H E)
    (w : World D K M MF V H) (f : MigrateFunc) : Option (World D K M MF V H × Option E) :=
  match w.runners.get? f.r with
  | none => none
  | some r =>
    some (⟨(r.Migrate W w.ds).1.2, w.runners.set f.r (r.Migrate W w.ds).1.1, w.calls⟩,
      (r.Migrate W w.ds).2)

/-- What a client of the two returned values does: an operation of the gated store, or a
call of the migrate function. -/
inductive StoreEvent (V : Type) where
  | Begin (i state : V)
  | Get (i : V)
  | Has (i : V)
  | List (out : V)
  | Migrate
  deriving DecidableEq, Repr

/-- The error with which the gated store of runner `r` refuses an operation in a world. -/
def World.refusal {D K M MF : Type} (W : Wiring D K M MF V H E) (r : Runner K M MF)
    (w : World D K M MF V H) : E :=
  W.NotMigratedError (r.current W.marker w.ds) r.target

/-- Along a sequence of events on the gated store `p` and the migrate function `f`: as long
as the last call of `f` has not succeeded (`migrated` is false; at the start no call has
been made), every operation of `p` returns the refusal of runner `r`, `Get` the stand-in
handle holding it, and the world is as it was; once the last call of `f` has succeeded,
every operation of `p` is the operation of the state store `U` on the present content of
the datastore, logged once. Every call of `f` and every operation returns. -/
def gatedUntilMigrated {D K M MF : Type} (W : Wiring D K M MF V H E)
    (p : migratedStateStorePtr K) (f : MigrateFunc) (r : Runner K M MF)
    (U : StateStore D V H E) :
    Bool → World D K M MF V H → List (StoreEvent V) → Prop
  | _, _, [] => True
  | migrated, w, .Begin i state :: rest =>
    p.Begin W w i state =
        (if migrated then
          some (⟨(U.Begin w.ds i state).1, w.runners, w.calls ++ [.Begin i state]⟩,
            (U.Begin w.ds i state).2)
        else some (w, some (w.refusal W r))) ∧
      ∀ w1 res, p.Begin W w i state = some (w1, res) →
        gatedUntilMigrated W p f r U migrated w1 rest
  | migrated, w, .Get i :: rest =>
    p.Get W w i =
        (if migrated then
          some (⟨(U.Get w.ds i).1, w.runners, w.calls ++ [.Get i]⟩,
            .stored (U.Get w.ds i).2)
        else some (w, .NotReadyStoredState (w.refusal W r))) ∧
      ∀ w1 res, p.Get W w i = some (w1, res) →
        gatedUntilMigrated W p f r U migrated w1 rest
  | migrated, w, .Has i :: rest =>
    p.Has W w i =
        (if migrated then
          some (⟨(U.Has w.ds i).1, w.runners, w.calls ++ [.Has i]⟩, (U.Has w.ds i).2)
        else some (w, (false, some (w.refusal W r)))) ∧
      ∀ w1 res, p.Has W w i = some (w1, res) →
        gatedUntilMigrated W p f r U migrated w1 rest
  | migrated, w, .List out :: rest =>
    p.List W w out =
        (if migrated then
          some (⟨(U.List w.ds out).1, w.runners, w.calls ++ [.List out]⟩,
            (U.List w.ds out).2)
        else some (w, some (w.refusal W r))) ∧
      ∀ w1 res, p.List W w out = some (w1, res) →
        gatedUntilMigrated W p f r U migrated w1 rest
  | _, w, .Migrate :: rest =>
    ∃ w1 err, f.call W w = some (w1, err) ∧
      gatedUntilMigrated W p f r U err.isNone w1 rest

/-! ## Specification-side notions -/

/-- A slice header is well-formed in a heap: its length is within its capacity, and unless
the capacity is zero it points to an array of exactly that capacity. -/
def Slice.valid (h : Heap) (s : Slice) : Prop :=
  s.len ≤ s.cap ∧ (s.cap = 0 ∨ (s.ptr < h.length ∧ (h.getD s.ptr []).length = s.cap))

/-- The clauses a configuration call contributes: one exclude clause per key of
`FilterKeys`, one include-only clause per key of `Only`, in key order. -/
def Call.clauses : Call Fn → List Filter
  | .Reversible _ => []
  | .FilterKeys keys => keys.map fun key => some ⟨.NotEqual, key⟩
  | .Only keys => keys.map fun key => some ⟨.Equal, key⟩

/-- The clauses of a chain of calls: the concatenation, in call order. -/
def chainClauses : List (Call Fn) → List Filter
  | [] => []
  | c :: cs => c.clauses ++ chainClauses cs

/-- Whether the call is a `Reversible` call. -/
def Call.isReversible : Call Fn → Bool
  | .Reversible _ => true
  | _ => false

/-- The inverse typing the builder has checked for an attached down-function: the builder's
result kind is assignable to the kind the down-function accepts, and the builder's source
kind is assignable to the kind the down-function returns. -/
def migrationBuilder.inverseTyped (R : Reflect Ty Fn) (m : migrationBuilder Ty Fn) : Prop :=
  m.isReversible = true →
    ∃ down accepted result, m.downFunc = some down ∧
      R.CheckMigration down = .ok (accepted, result) ∧
      R.AssignableTo m.newType accepted = true ∧ R.AssignableTo m.oldType result = true

/-- The down-function a call attaches, if it is a `Reversible` call. -/
def Call.down : Call Fn → Option Fn
  | .Reversible down => some down
  | _ => none

/-- The down-function of the last `Reversible` call of a chain, if there is one. -/
def lastReversible : List (Call Fn) → Option Fn
  | [] => none
  | c :: cs =>
    match lastReversible cs with
    | some down => some down
    | none => c.down

/-! ## A concrete reflection environment and a concrete state store -/

/-- A fragment of Go's types: pointers to named struct types and named interface types,
each with its method set. -/
inductive GoType where
  | pointer (name : String) (methods : List String)
  | iface (name : String) (methods : List String)
  deriving DecidableEq, Repr

/-- The method set of a type. -/
def GoType.methods : GoType → List String
  | .pointer _ ms => ms
  | .iface _ ms => ms

/-- Go's assignability on this fragment (`v.AssignableTo(t)`): the types are identical, or
`t` is an interface type that `v` implements. -/
def GoType.AssignableTo (v t : GoType) : Bool :=
  v == t ||
    match t with
    | .iface _ ms => ms.all fun m => v.methods.contains m
    | .pointer _ _ => false

/-- The built-in interface type `error`. -/
def GoType.error : GoType := .iface "error" ["Error"]

/-- A record kind: a type that carries the encode/decode contract. -/
def GoType.isRecordKind (t : GoType) : Bool :=
  t.methods.contains "MarshalCBOR" && t.methods.contains "UnmarshalCBOR"

/-- A Go function value, by its name and signature. -/
structure GoFunc where
  name : String
  ins : List GoType
  outs : List GoType
  deriving DecidableEq, Repr

/-- Modelled from the spec: `validate.CheckMigration` (internal/validate, not among the
source files), sections 4.1 and 6: a migration function accepts exactly one value of a
record kind and returns a value of a record kind or a failure; any other shape is rejected
with a construction error. The kinds returned are the accepted one and the result one. -/
def CheckMigration (f : GoFunc) : Except GoError (GoType × GoType) :=
  match f.ins, f.outs with
  | [a], [r, e] =>
    if a.isRecordKind && r.isRecordKind && e == GoType.error then .ok (a, r)
    else .error "ConstructionError"
  | _, _ => .error "ConstructionError"

/-- The reflection environment of the Go fragment, with the nominal slice growth. -/
def goReflect : Reflect GoType GoFunc where
  CheckMigration := CheckMigration
  AssignableTo := GoType.AssignableTo
  growslice := growslice
  grows := fun oldCap => by
    unfold growslice
    split
    · omega
    · split <;> omega

/-- The record kind `*V1`. -/
def kindV1 : GoType := .pointer "V1" ["MarshalCBOR", "UnmarshalCBOR"]

/-- The record kind `*V2`. -/
def kindV2 : GoType := .pointer "V2" ["MarshalCBOR", "UnmarshalCBOR"]

/-- An interface type that every record kind implements. -/
def kindRecord : GoType := .iface "Record" ["MarshalCBOR", "UnmarshalCBOR"]

/-- A function `func(*V1) (*V2, error)`. -/
def upV1V2 : GoFunc := ⟨"up", [kindV1], [kindV2, GoType.error]⟩

/-- A function `func(*V2) (*V1, error)`. -/
def downV2V1 : GoFunc := ⟨"down", [kindV2], [kindV1, GoType.error]⟩

/-- A function `func(*V2) (Record, error)`, whose result type is the interface. -/
def downV2Record : GoFunc := ⟨"downRecord", [kindV2], [kindRecord, GoType.error]⟩

/-- A function `func(*V1) (*V1, error)`, not an inverse of `upV1V2`. -/
def downV1V1 : GoFunc := ⟨"sameKind", [kindV1], [kindV1, GoType.error]⟩

/-- A function `func()`, of the wrong shape. -/
def noArgs : GoFunc := ⟨"noArgs", [], []⟩

/-- A small state store: an association list from names to states, with handles that are
the names. `Begin` refuses a name already tracked; a handle's operations refuse a name not
tracked. -/
def listStore : StateStore (List (Nat × Nat)) Nat Nat String where
  Begin := fun st i state =>
    if st.any (fun e => e.1 == i) then (st, some "already tracking state")
    else (st ++ [(i, state)], none)
  Get := fun st i => (st, i)
  Has := fun st i => (st, (st.any (fun e => e.1 == i), none))
  StoredEnd := fun st handle =>
    if st.any (fun e => e.1 == handle) then (st.filter (fun e => e.1 != handle), none)
    else (st, some "not found")
  StoredGet := fun st handle _ =>
    if st.any (fun e => e.1 == handle) then (st, none) else (st, some "not found")
  StoredMutate := fun st handle mutator =>
    if st.any (fun e => e.1 == handle) then
      (st.map (fun e => if e.1 == handle then (e.1, mutator) else e), none)
    else (st, some "not found")
  List := fun st _ => (st, none)

/-- A gated store over `listStore` that tracks name 1, with the given readiness. -/
def gatedListStore (r : Option String) : migratedStateStore (List (Nat × Nat)) Nat Nat String :=
  ⟨⟨[(1, 10)], []⟩, ⟨r⟩⟩

/-- A source store with the keys `x`, `y` and `z`. -/
def sourceXYZ : Datastore := [("x", [1]), ("y", [2]), ("z", [3])]

/-- The builder `base = NewMigrationBuilder(up).FilterKeys(["a","b","c"])` in an empty heap:
its slice of filters has length 3 and capacity 4. -/
def aliasBase : Heap × Builder GoType GoFunc :=
  (NewMigrationBuilder goReflect upV1V2).FilterKeys goReflect [] ["a", "b", "c"]

/-- The builder `base.Only(["x"])`, from which the migration `m` is built. -/
def aliasDerived : Heap × Builder GoType GoFunc :=
  aliasBase.2.Only goReflect aliasBase.1 ["x"]

/-- The later call `base.FilterKeys(["y"])`, made after `m` was built. -/
def aliasLater : Heap × Builder GoType GoFunc :=
  aliasBase.2.FilterKeys goReflect aliasDerived.1 ["y"]

/-- A write to a datastore that always succeeds: the value at an existing key is replaced
in place, a new key goes to the end of the native order. -/
def Datastore.put (d : Datastore) (key : String) (bytes : Bytes) : Datastore :=
  if d.any (fun e => e.1 == key) then d.map (fun e => if e.1 == key then (key, bytes) else e)
  else d ++ [(key, bytes)]

/-- Records `val` of either kind, stored as the one-number payload `[val]`; the function
named `up` multiplies `val` by 10 and the one named `down` divides it by 10; writes always
succeed. -/
def valRecords : Records GoType GoFunc Nat where
  decode := fun _ raw =>
    match raw with
    | [n] => some n
    | _ => none
  encode := fun v => some [v]
  call := fun fn v =>
    match fn with
    | none => .error "call of zero Value"
    | some f =>
      if f.name == "up" then .ok (v * 10)
      else if f.name == "down" then .ok (v / 10)
      else .error "unknown function"
  put := fun d key bytes => some (Datastore.put d key bytes)

/-- The records of `valRecords` over a store that enumerates the key written last first: a
new key goes to the front of the native order. -/
def frontRecords : Records GoType GoFunc Nat where
  decode := valRecords.decode
  encode := valRecords.encode
  call := valRecords.call
  put := fun d key bytes =>
    some (if d.any (fun e => e.1 == key) then
        d.map (fun e => if e.1 == key then (key, bytes) else e)
      else (key, bytes) :: d)

/-- A context that is never cancelled. -/
def background : Nat → Bool := fun _ => false

/-- The source store of the scenario: `a`, `b`, `c` holding `val` 1, 2, 3. -/
def sourceABC : Datastore := [("a", [1]), ("b", [2]), ("c", [3])]

/-- What one executor step makes of a payload when nothing fails: decoded as the source
kind, transformed and encoded again. -/
def transformBytes {Val : Type} (X : Records Ty Fn Val) (sourceKind : Ty)
    (transformFn : Option Fn) (raw : Bytes) : Option Bytes :=
  match X.decode sourceKind raw with
  | none => none
  | some record =>
    match X.call transformFn record with
    | .error _ => none
    | .ok migrated => X.encode migrated

/-- The reversible migration of the scenario: no filter, `up` from `*V1` to `*V2`, `down`
back. -/
def scenarioMigration : reversibleDsMigration GoType GoFunc :=
  { query := ⟨Slice.nil⟩, oldType := kindV1, newType := kindV2, upFunc := some upV1V2,
    downFunc := some downV2V1 }

/-- A wiring over `listStore`: the content of the datastore is its persisted marker and
the content of the state store; the walk succeeds and leaves the marker at the target; the
runner's error is the message "not migrated". -/
def listWiring : Wiring (Option VersionKey × List (Nat × Nat)) String Unit Unit Nat Nat
    String where
  To := ()
  marker := fun d => d.1
  NotMigratedError := fun _ _ => "not migrated"
  run := fun r d => ((some r.target, d.2), none)
  NewKey := fun s => "/" ++ s
  New := fun _ =>
    { Begin := fun d i state =>
        ((d.1, (listStore.Begin d.2 i state).1), (listStore.Begin d.2 i state).2)
      Get := fun d i => ((d.1, (listStore.Get d.2 i).1), (listStore.Get d.2 i).2)
      Has := fun d i => ((d.1, (listStore.Has d.2 i).1), (listStore.Has d.2 i).2)
      StoredEnd := fun d handle =>
        ((d.1, (listStore.StoredEnd d.2 handle).1), (listStore.StoredEnd d.2 handle).2)
      StoredGet := fun d handle out =>
        ((d.1, (listStore.StoredGet d.2 handle out).1),
          (listStore.StoredGet d.2 handle out).2)
      StoredMutate := fun d handle mutator =>
        ((d.1, (listStore.StoredMutate d.2 handle mutator).1),
          (listStore.StoredMutate d.2 handle mutator).2)
      List := fun d out => ((d.1, (listStore.List d.2 out).1), (listStore.List d.2 out).2) }

/-- A world with a datastore without marker whose state store tracks name 1, no runner and
an empty log. -/
def listWorld : World (Option VersionKey × List (Nat × Nat)) String Unit Unit Nat Nat :=
  ⟨(none, [(1, 10)]), [], []⟩

/-! ## Slices: `append` extends what a well-formed slice denotes -/

theorem growslice_gt (c : Nat) : c < growslice c := by
  unfold growslice
  split
  · omega
  · split <;> omega

theorem Slice.valid_nil (h : Heap) : Slice.nil.valid h := by
  simp [Slice.valid, Slice.nil]

theorem read_length (h : Heap) (s : Slice) (hv : s.valid h) : (h.read s).length = s.len := by
  obtain ⟨hle, hc⟩ := hv
  simp only [Heap.read, List.length_take]
  rcases hc with hc | ⟨_, hc⟩
  · omega
  · omega

theorem take_succ_set {α : Type} (a : List α) (n : Nat) (x : α) (hn : n < a.length) :
    (a.set n x).take (n + 1) = a.take n ++ [x] := by
  rw [List.take_succ, List.set_take, List.set_eq_of_length_le (by simp)]
  simp [hn]

theorem take_succ_append {α : Type} (r t : List α) (x : α) (n : Nat) (hn : r.length = n) :
    (r ++ [x] ++ t).take (n + 1) = r ++ [x] := by
  subst hn
  have : (r ++ [x]).length = r.length + 1 := by simp
  rw [← this, List.take_left]

theorem getD_of_lt (h : Heap) (p : Nat) (hp : p < h.length) : h.getD p [] = h[p] := by
  simp [List.getD_eq_getElem?_getD, hp]

theorem append_spec (grow : Nat → Nat) (hgrow : ∀ c, c < grow c) (h : Heap) (s : Slice)
    (x : FilterKeyCompare) (hv : s.valid h) :
    (append grow h s x).2.valid (append grow h s x).1 ∧
      (append grow h s x).1.read (append grow h s x).2 = h.read s ++ [some x] := by
  have hlen := read_length h s hv
  obtain ⟨hle, hc⟩ := hv
  unfold append
  split
  · next hlt =>
    rcases hc with hc | ⟨hp, hc⟩
    · omega
    · have hg := getD_of_lt h s.ptr hp
      rw [hg] at hc
      have hg2 : (h.set s.ptr (h[s.ptr].set s.len (some x))).getD s.ptr [] =
          h[s.ptr].set s.len (some x) := by
        simp [List.getD_eq_getElem?_getD, hp]
      refine ⟨⟨by simp; omega, Or.inr ⟨by simpa using hp, ?_⟩⟩, ?_⟩
      · simp only [hg, hg2, List.length_set, hc]
      · simp only [Heap.read, hg, hg2]
        exact take_succ_set _ _ _ (by omega)
  · next hnl =>
    have hgt := hgrow s.cap
    have hg2 : ∀ arr : List Filter, (h ++ [arr]).getD h.length [] = arr := by
      intro arr
      simp [List.getD_eq_getElem?_getD]
    refine ⟨⟨by simp; omega, Or.inr ⟨by simp, ?_⟩⟩, ?_⟩
    · simp only [hg2, List.length_append, hlen, List.length_replicate, List.length_singleton]
      omega
    · simp only [Heap.read, hg2]
      exact take_succ_append _ _ _ _ hlen

theorem appendKeys_spec (grow : Nat → Nat) (hgrow : ∀ c, c < grow c) (op : Op)
    (keys : List String) (h : Heap) (s : Slice) (hv : s.valid h) :
    (appendKeys grow op h s keys).2.valid (appendKeys grow op h s keys).1 ∧
      (appendKeys grow op h s keys).1.read (appendKeys grow op h s keys).2 =
        h.read s ++ keys.map fun key => some ⟨op, key⟩ := by
  induction keys generalizing h s with
  | nil => simpa [appendKeys] using hv
  | cons key rest ih =>
    have h1 := append_spec grow hgrow h s ⟨op, key⟩ hv
    have h2 := ih (append grow h s ⟨op, key⟩).1 (append grow h s ⟨op, key⟩).2 h1.1
    simp only [appendKeys, List.foldl_cons] at h2 ⊢
    refine ⟨h2.1, ?_⟩
    rw [h2.2, h1.2]
    simp

/-! ## Builder chains -/

theorem chain_cons (R : Reflect Ty Fn) (s : Heap × Builder Ty Fn) (c : Call Fn)
    (cs : List (Call Fn)) :
    Builder.chain R s (c :: cs) = Builder.chain R (Builder.call R s c) cs := by
  simp [Builder.chain]

theorem call_eb (R : Reflect Ty Fn) (h : Heap) (e : errorBuilder) (c : Call Fn) :
    Builder.call R (h, .eb e) c = (h, .eb e) := by
  cases c <;> rfl

theorem chain_eb (R : Reflect Ty Fn) (h : Heap) (e : errorBuilder) (cs : List (Call Fn)) :
    Builder.chain R (h, .eb e) cs = (h, .eb e) := by
  induction cs with
  | nil => rfl
  | cons c cs ih => rw [chain_cons, call_eb, ih]

theorem Reversible_eq_mb (R : Reflect Ty Fn) (m b : migrationBuilder Ty Fn) (down : Fn) :
    m.Reversible R down = .mb b ↔
      ∃ accepted result, R.CheckMigration down = .ok (accepted, result) ∧
        R.AssignableTo m.newType accepted = true ∧ R.AssignableTo m.oldType result = true ∧
        b = ⟨m.oldType, m.newType, m.upFunc, m.filters, true, some down⟩ := by
  unfold migrationBuilder.Reversible
  cases hc : R.CheckMigration down with
  | error err => simp
  | ok p =>
    obtain ⟨accepted, result⟩ := p
    constructor
    · intro hb
      refine ⟨accepted, result, rfl, ?_⟩
      cases h1 : R.AssignableTo m.oldType result <;>
        cases h2 : R.AssignableTo m.newType accepted <;> simp [h1, h2] at hb
      exact ⟨rfl, rfl, hb.symm⟩
    · rintro ⟨accepted1, result1, hck, h2, h1, rfl⟩
      simp only [Except.ok.injEq, Prod.mk.injEq] at hck
      obtain ⟨rfl, rfl⟩ := hck
      simp [h1, h2]

theorem chain_mb (R : Reflect Ty Fn) (cs : List (Call Fn)) :
    ∀ (h : Heap) (m0 : migrationBuilder Ty Fn) (h1 : Heap) (b : migrationBuilder Ty Fn),
      m0.filters.valid h → m0.inverseTyped R →
      Builder.chain R (h, .mb m0) cs = (h1, .mb b) →
      b.filters.valid h1 ∧ h1.read b.filters = h.read m0.filters ++ chainClauses cs ∧
        b.oldType = m0.oldType ∧ b.newType = m0.newType ∧ b.upFunc = m0.upFunc ∧
        b.isReversible = (m0.isReversible || cs.any Call.isReversible) ∧
        b.inverseTyped R := by
  induction cs with
  | nil =>
    intro h m0 h1 b hv hi hch
    simp only [Builder.chain, List.foldl_nil, Prod.mk.injEq, Builder.mb.injEq] at hch
    obtain ⟨rfl, rfl⟩ := hch
    simp [chainClauses, hv, hi]
  | cons c cs ih =>
    intro h m0 h1 b hv hi hch
    rw [chain_cons] at hch
    cases c with
    | Reversible down =>
      simp only [Builder.call, Builder.Reversible] at hch
      cases hr : m0.Reversible R down with
      | eb e =>
        rw [hr, chain_eb] at hch
        simp at hch
      | mb m1 =>
        rw [hr] at hch
        obtain ⟨accepted, result, hck, ha, hb, hm1⟩ := (Reversible_eq_mb R m0 m1 down).1 hr
        have hv1 : m1.filters.valid h := by rw [hm1]; exact hv
        have hi1 : m1.inverseTyped R := by
          intro _
          refine ⟨down, accepted, result, ?_, hck, ?_, ?_⟩
          · rw [hm1]
          · rw [hm1]; exact ha
          · rw [hm1]; exact hb
        have := ih h m1 h1 b hv1 hi1 hch
        rw [hm1] at this
        simpa [chainClauses, Call.clauses, Call.isReversible] using this
    | FilterKeys keys =>
      simp only [Builder.call, Builder.FilterKeys, migrationBuilder.FilterKeys] at hch
      have hk := appendKeys_spec R.growslice R.grows .NotEqual keys h m0.filters hv
      have := ih _ ⟨m0.oldType, m0.newType, m0.upFunc, (appendKeys R.growslice .NotEqual h m0.filters keys).2,
        m0.isReversible, m0.downFunc⟩ h1 b hk.1 hi hch
      simpa [chainClauses, Call.clauses, Call.isReversible, hk.2] using this
    | Only keys =>
      simp only [Builder.call, Builder.Only, migrationBuilder.Only] at hch
      have hk := appendKeys_spec R.growslice R.grows .Equal keys h m0.filters hv
      have := ih _ ⟨m0.oldType, m0.newType, m0.upFunc, (appendKeys R.growslice .Equal h m0.filters keys).2,
        m0.isReversible, m0.downFunc⟩ h1 b hk.1 hi hch
      simpa [chainClauses, Call.clauses, Call.isReversible, hk.2] using this

theorem NewMigrationBuilder_eq_mb (R : Reflect Ty Fn) (up : Fn) (m : migrationBuilder Ty Fn) :
    NewMigrationBuilder R up = .mb m ↔
      ∃ oldType newType, R.CheckMigration up = .ok (oldType, newType) ∧
        m = ⟨oldType, newType, some up, Slice.nil, false, none⟩ := by
  unfold NewMigrationBuilder
  cases hc : R.CheckMigration up with
  | error err => simp
  | ok p =>
    obtain ⟨oldType, newType⟩ := p
    constructor
    · intro hb
      simp only [Builder.mb.injEq] at hb
      exact ⟨oldType, newType, rfl, hb.symm⟩
    · rintro ⟨o1, n1, hck, rfl⟩
      simp only [Except.ok.injEq, Prod.mk.injEq] at hck
      obtain ⟨rfl, rfl⟩ := hck
      rfl

theorem chain_new (R : Reflect Ty Fn) (h : Heap) (up : Fn) (cs : List (Call Fn)) (h1 : Heap)
    (b : migrationBuilder Ty Fn)
    (hch : Builder.chain R (h, NewMigrationBuilder R up) cs = (h1, .mb b)) :
    ∃ oldType newType, R.CheckMigration up = .ok (oldType, newType) ∧
      b.filters.valid h1 ∧ h1.read b.filters = chainClauses cs ∧
      b.oldType = oldType ∧ b.newType = newType ∧ b.upFunc = some up ∧
      b.isReversible = cs.any Call.isReversible ∧ b.inverseTyped R := by
  cases hn : NewMigrationBuilder R up with
  | eb e =>
    rw [hn, chain_eb] at hch
    simp at hch
  | mb m0 =>
    rw [hn] at hch
    obtain ⟨oldType, newType, hck, rfl⟩ := (NewMigrationBuilder_eq_mb R up m0).1 hn
    have := chain_mb R cs h _ h1 b (Slice.valid_nil h) (by simp [migrationBuilder.inverseTyped]) hch
    refine ⟨oldType, newType, hck, ?_⟩
    simpa [Heap.read, Slice.nil] using this

/-! ## Claims about the builder -/

/-- C2: the first failure of a builder chain is the one `Build()` returns. If
`NewMigrationBuilder(up)` fails validation with error `e`, or a `Reversible(down)` call on a
non-error builder fails with error `e`, then after any sequence of later `Reversible`,
`FilterKeys` and `Only` calls the builder is still the error builder holding `e`, the heap
is untouched, and `Build()` returns no migration and exactly `e`. -/
theorem first_failure_is_returned (R : Reflect Ty Fn) (h : Heap) (e : GoError)
    (b : Builder Ty Fn) (cs : List (Call Fn))
    (hfail : (∃ up, R.CheckMigration up = .error e ∧ b = NewMigrationBuilder R up) ∨
      (∃ m down, m.Reversible R down = .eb ⟨e⟩ ∧ b = (Builder.mb m).Reversible R down)) :
    Builder.chain R (h, b) cs = (h, .eb ⟨e⟩) ∧
      (Builder.chain R (h, b) cs).2.Build = (none, some e) := by
  have hb : b = .eb ⟨e⟩ := by
    rcases hfail with ⟨up, hck, rfl⟩ | ⟨m, down, hr, rfl⟩
    · simp [NewMigrationBuilder, hck]
    · simpa [Builder.Reversible] using hr
  subst hb
  rw [chain_eb]
  exact ⟨rfl, rfl⟩

/-- C2, at a concrete chain: a function of the wrong shape, then a valid `Reversible`, a
`FilterKeys` and an `Only`; `Build()` returns the construction error. -/
theorem first_failure_is_returned_witness :
    goReflect.CheckMigration noArgs = .error "ConstructionError" ∧
      (Builder.chain goReflect ([], NewMigrationBuilder goReflect noArgs)
        [.Reversible downV2V1, .FilterKeys ["a"], .Only ["b"]]).2.Build
        = (none, some "ConstructionError") :=
  ⟨rfl, (first_failure_is_returned goReflect [] "ConstructionError"
    (NewMigrationBuilder goReflect noArgs) _ (Or.inl ⟨noArgs, rfl, rfl⟩)).2⟩

/-- C3, as the code has it: for a non-error builder made from an up-function with source
kind `S` and result kind `D`, and a down-function of valid shape with accepted kind `A` and
result kind `Rk`, `Reversible(down)` yields a non-error builder if and only if `D` is
assignable to `A` and `S` is assignable to `Rk`; the resulting builder is reversible.
Consequently every reversible migration produced by `Build()` has a down-function whose
accepted kind is assignable from the up-function's result kind and whose result kind is
assignable from the up-function's source kind. -/
theorem reversible_iff_inverse_types (R : Reflect Ty Fn) (h : Heap) (up : Fn)
    (cs : List (Call Fn)) (h1 : Heap) (m : migrationBuilder Ty Fn) (S D : Ty)
    (hup : R.CheckMigration up = .ok (S, D))
    (hch : Builder.chain R (h, NewMigrationBuilder R up) cs = (h1, .mb m)) :
    (∀ down A Rk, R.CheckMigration down = .ok (A, Rk) →
      ((∃ b, m.Reversible R down = .mb b ∧ b.isReversible = true) ↔
        (R.AssignableTo D A = true ∧ R.AssignableTo S Rk = true))) ∧
    (∀ rdm, (Builder.mb m).Build = (some (.reversible rdm), none) →
      ∃ down A Rk, rdm.downFunc = some down ∧ R.CheckMigration down = .ok (A, Rk) ∧
        R.AssignableTo D A = true ∧ R.AssignableTo S Rk = true) := by
  obtain ⟨oldType, newType, hck, _, _, hold, hnew, _, _, hinv⟩ := chain_new R h up cs h1 m hch
  rw [hup] at hck
  simp only [Except.ok.injEq, Prod.mk.injEq] at hck
  obtain ⟨rfl, rfl⟩ := hck
  constructor
  · intro down A Rk hdown
    constructor
    · rintro ⟨b, hb, _⟩
      obtain ⟨A1, R1, hck1, ha, hb1, _⟩ := (Reversible_eq_mb R m b down).1 hb
      rw [hdown] at hck1
      simp only [Except.ok.injEq, Prod.mk.injEq] at hck1
      obtain ⟨rfl, rfl⟩ := hck1
      rw [hnew] at ha
      rw [hold] at hb1
      exact ⟨ha, hb1⟩
    · rintro ⟨ha, hb⟩
      refine ⟨⟨m.oldType, m.newType, m.upFunc, m.filters, true, some down⟩, ?_, rfl⟩
      refine (Reversible_eq_mb R m _ down).2 ⟨A, Rk, hdown, ?_, ?_, rfl⟩
      · rw [hnew]; exact ha
      · rw [hold]; exact hb
  · intro rdm hbuild
    simp only [Builder.Build, migrationBuilder.Build] at hbuild
    cases hrev : m.isReversible with
    | false => simp [hrev] at hbuild
    | true =>
      simp only [hrev, Bool.not_true, Bool.false_eq_true, ↓reduceIte, Prod.mk.injEq,
        Option.some.injEq, DatastoreMigration.reversible.injEq, and_true] at hbuild
      obtain ⟨down, A, Rk, hd, hck, ha, hb⟩ := hinv hrev
      refine ⟨down, A, Rk, ?_, hck, ?_, ?_⟩
      · rw [← hbuild]; exact hd
      · rw [← hnew]; exact ha
      · rw [← hold]; exact hb

/-- C3, as the code has it, at a concrete builder: `func(*V1) (*V2, error)` made reversible
by `func(*V2) (*V1, error)`. -/
theorem reversible_iff_inverse_types_witness :
    goReflect.CheckMigration upV1V2 = .ok (kindV1, kindV2) ∧
      ((∃ b, (⟨kindV1, kindV2, some upV1V2, ⟨0, 1, 1⟩, false, none⟩ :
          migrationBuilder GoType GoFunc).Reversible goReflect downV2V1 = .mb b ∧
            b.isReversible = true) ↔
        (goReflect.AssignableTo kindV2 kindV2 = true ∧
          goReflect.AssignableTo kindV1 kindV1 = true)) :=
  ⟨rfl, (reversible_iff_inverse_types goReflect [] upV1V2 [.FilterKeys ["a"]] _ _ kindV1 kindV2
    rfl rfl).1 downV2V1 kindV2 kindV1 rfl⟩

/-- C3 fails as stated: `func(*V2) (Record, error)`, whose result kind is an interface that
`*V1` implements, is accepted as the inverse of `func(*V1) (*V2, error)`, although its
result kind `Record` is not assignable to the source kind `*V1`. -/
theorem reversible_accepts_wider_result :
    ∃ m b, NewMigrationBuilder goReflect upV1V2 = .mb m ∧
      goReflect.CheckMigration upV1V2 = .ok (kindV1, kindV2) ∧
      goReflect.CheckMigration downV2Record = .ok (kindV2, kindRecord) ∧
      m.Reversible goReflect downV2Record = .mb b ∧
      ¬ (goReflect.AssignableTo kindV2 kindV2 = true ∧
          goReflect.AssignableTo kindRecord kindV1 = true) :=
  ⟨_, _, rfl, rfl, rfl, rfl, by decide⟩

/-- C4: for every non-error builder chain, the key filter of the migration returned by
`Build()` is exactly the concatenation, in call order and in key order within each call, of
one exclude clause per key passed to `FilterKeys` and one include-only clause per key passed
to `Only`. -/
theorem build_filter_is_concatenation (R : Reflect Ty Fn) (h : Heap) (up : Fn)
    (cs : List (Call Fn)) (h1 : Heap) (b : migrationBuilder Ty Fn)
    (hch : Builder.chain R (h, NewMigrationBuilder R up) cs = (h1, .mb b)) :
    ∃ m, (Builder.mb b).Build = (some m, none) ∧ m.filters h1 = chainClauses cs := by
  obtain ⟨_, _, _, _, hread, _⟩ := chain_new R h up cs h1 b hch
  simp only [Builder.Build, migrationBuilder.Build]
  cases b.isReversible
  · exact ⟨_, rfl, by simpa [DatastoreMigration.filters, DatastoreMigration.ds] using hread⟩
  · exact ⟨_, rfl, by simpa [DatastoreMigration.filters, DatastoreMigration.ds] using hread⟩

/-- C4, at a concrete chain with an empty key list, a repeated key and a `Reversible` call
in the middle. -/
theorem build_filter_is_concatenation_witness :
    ∃ m, (Builder.chain goReflect ([], NewMigrationBuilder goReflect upV1V2)
        [.FilterKeys ["a", "b"], .Only [], .Reversible downV2V1, .Only ["c", "c"],
          .FilterKeys ["a"]]).2.Build = (some m, none) ∧
      m.filters (Builder.chain goReflect ([], NewMigrationBuilder goReflect upV1V2)
        [.FilterKeys ["a", "b"], .Only [], .Reversible downV2V1, .Only ["c", "c"],
          .FilterKeys ["a"]]).1 =
        [some ⟨.NotEqual, "a"⟩, some ⟨.NotEqual, "b"⟩, some ⟨.Equal, "c"⟩, some ⟨.Equal, "c"⟩,
          some ⟨.NotEqual, "a"⟩] :=
  build_filter_is_concatenation goReflect [] upV1V2
    [.FilterKeys ["a", "b"], .Only [], .Reversible downV2V1, .Only ["c", "c"],
      .FilterKeys ["a"]] _ _ rfl

theorem any_isReversible (cs : List (Call Fn)) :
    cs.any Call.isReversible = true ↔ ∃ down, Call.Reversible down ∈ cs := by
  simp only [List.any_eq_true]
  constructor
  · rintro ⟨c, hc, hr⟩
    cases c with
    | Reversible down => exact ⟨down, hc⟩
    | FilterKeys keys => simp [Call.isReversible] at hr
    | Only keys => simp [Call.isReversible] at hr
  · rintro ⟨down, hd⟩
    exact ⟨_, hd, rfl⟩

theorem chain_succeeds (R : Reflect Ty Fn) (S D : Ty) (cs : List (Call Fn)) :
    ∀ (h : Heap) (m0 : migrationBuilder Ty Fn), m0.oldType = S → m0.newType = D →
      (∀ down, Call.Reversible down ∈ cs → ∃ A Rk, R.CheckMigration down = .ok (A, Rk) ∧
        R.AssignableTo D A = true ∧ R.AssignableTo S Rk = true) →
      ∃ h1 b, Builder.chain R (h, .mb m0) cs = (h1, .mb b) := by
  induction cs with
  | nil => exact fun h m0 _ _ _ => ⟨h, m0, rfl⟩
  | cons c cs ih =>
    intro h m0 ho hn hrev
    rw [chain_cons]
    have hrest : ∀ down, Call.Reversible down ∈ cs → ∃ A Rk,
        R.CheckMigration down = .ok (A, Rk) ∧
        R.AssignableTo D A = true ∧ R.AssignableTo S Rk = true :=
      fun down hd => hrev down (List.mem_cons_of_mem _ hd)
    cases c with
    | Reversible down =>
      obtain ⟨A, Rk, hck, ha, hb⟩ := hrev down (List.mem_cons_self _ _)
      have hr : m0.Reversible R down =
          .mb ⟨m0.oldType, m0.newType, m0.upFunc, m0.filters, true, some down⟩ :=
        (Reversible_eq_mb R m0 _ down).2 ⟨A, Rk, hck, by rw [hn]; exact ha,
          by rw [ho]; exact hb, rfl⟩
      simp only [Builder.call, Builder.Reversible, hr]
      exact ih h _ ho hn hrest
    | FilterKeys keys => exact ih _ _ ho hn hrest
    | Only keys => exact ih _ _ ho hn hrest

/-- C8: `Build()` on a non-error builder never fails. For a valid up-function and a chain
of `FilterKeys`, `Only` and successful `Reversible` calls, the chain ends in a non-error
builder and `Build()` returns a nil error and a migration (which has `Up`); the migration
has `Down` if and only if at least one `Reversible` call occurred in the chain. `Build()`
on an error-state builder returns no migration. -/
theorem build_never_fails (R : Reflect Ty Fn) (h : Heap) (up : Fn) (S D : Ty)
    (cs : List (Call Fn)) (hup : R.CheckMigration up = .ok (S, D))
    (hrev : ∀ down, Call.Reversible down ∈ cs → ∃ A Rk, R.CheckMigration down = .ok (A, Rk) ∧
      R.AssignableTo D A = true ∧ R.AssignableTo S Rk = true) :
    (∃ h1 b m, Builder.chain R (h, NewMigrationBuilder R up) cs = (h1, .mb b) ∧
      (Builder.chain R (h, NewMigrationBuilder R up) cs).2.Build = (some m, none) ∧
      (m.hasDown = true ↔ ∃ down, Call.Reversible down ∈ cs)) ∧
    (∀ eb : errorBuilder, (Builder.eb eb : Builder Ty Fn).Build = (none, some eb.err)) := by
  refine ⟨?_, fun _ => rfl⟩
  have hnew : NewMigrationBuilder R up = .mb ⟨S, D, some up, Slice.nil, false, none⟩ :=
    (NewMigrationBuilder_eq_mb R up _).2 ⟨S, D, hup, rfl⟩
  obtain ⟨h1, b, hch⟩ := chain_succeeds R S D cs h ⟨S, D, some up, Slice.nil, false, none⟩
    rfl rfl hrev
  rw [← hnew] at hch
  obtain ⟨_, _, _, _, _, _, _, _, hr, _⟩ := chain_new R h up cs h1 b hch
  rw [hch]
  simp only [Builder.Build, migrationBuilder.Build]
  cases hb : b.isReversible with
  | false =>
    refine ⟨h1, b, _, rfl, rfl, ?_⟩
    rw [← any_isReversible, ← hr, hb]
    simp [DatastoreMigration.hasDown]
  | true =>
    refine ⟨h1, b, _, rfl, rfl, ?_⟩
    rw [← any_isReversible, ← hr, hb]
    simp [DatastoreMigration.hasDown]

/-- C8, at a concrete chain with a `Reversible` call in the middle: `Build()` succeeds and
the migration has `Down`. -/
theorem build_never_fails_witness :
    ∃ h1 b m, Builder.chain goReflect ([], NewMigrationBuilder goReflect upV1V2)
        [.Only ["a"], .Reversible downV2V1, .FilterKeys ["b"]] = (h1, .mb b) ∧
      (Builder.chain goReflect ([], NewMigrationBuilder goReflect upV1V2)
        [.Only ["a"], .Reversible downV2V1, .FilterKeys ["b"]]).2.Build = (some m, none) ∧
      (m.hasDown = true ↔ ∃ down, Call.Reversible down ∈
        ([.Only ["a"], .Reversible downV2V1, .FilterKeys ["b"]] : List (Call GoFunc))) :=
  (build_never_fails goReflect [] upV1V2 kindV1 kindV2
    [.Only ["a"], .Reversible downV2V1, .FilterKeys ["b"]] rfl
    (fun down hd => by
      have : down = downV2V1 := by simpa using hd
      subst this
      exact ⟨kindV2, kindV1, rfl, rfl, rfl⟩)).1

/-- C9 fails on the code: with `base = NewMigrationBuilder(up).FilterKeys(["a","b","c"])`,
the migration `m` built from `base.Only(["x"])` has the filter `a`, `b`, `c` excluded and
only `x` included; after the later call `base.FilterKeys(["y"])`, which appends into the
spare capacity of the backing array that `base` and `m` share, the same migration `m` has
the filter `a`, `b`, `c`, `y` excluded: its include-only clause was overwritten. -/
theorem built_filter_overwritten_by_later_call :
    ∃ m, aliasDerived.2.Build = (some m, none) ∧
      m.filters aliasDerived.1 =
        [some ⟨.NotEqual, "a"⟩, some ⟨.NotEqual, "b"⟩, some ⟨.NotEqual, "c"⟩,
          some ⟨.Equal, "x"⟩] ∧
      m.filters aliasLater.1 =
        [some ⟨.NotEqual, "a"⟩, some ⟨.NotEqual, "b"⟩, some ⟨.NotEqual, "c"⟩,
          some ⟨.NotEqual, "y"⟩] :=
  ⟨_, rfl, rfl, rfl⟩

/-! ## Which keys a built migration processes -/

theorem mem_processed (h : Heap) (m : DatastoreMigration Ty Fn) (source : Datastore)
    (k : String) :
    k ∈ m.processed h source ↔ k ∈ source.map Prod.fst ∧ m.ds.query.accepts h k = true := by
  simp only [DatastoreMigration.processed, Query.results, List.mem_map, List.mem_filter]
  constructor
  · rintro ⟨e, ⟨he, hacc⟩, rfl⟩
    exact ⟨⟨e, he, rfl⟩, hacc⟩
  · rintro ⟨⟨e, he, rfl⟩, hacc⟩
    exact ⟨e, ⟨he, hacc⟩, rfl⟩

theorem accepts_chainClauses (h : Heap) (m : DatastoreMigration Ty Fn) (cs : List (Call Fn))
    (k : String) (hread : m.filters h = chainClauses cs) :
    m.ds.query.accepts h k = true ↔
      ∀ c ∈ chainClauses cs, ∃ f, c = some f ∧ f.Filter k = true := by
  simp only [DatastoreMigration.filters] at hread
  simp only [Query.accepts, hread, List.all_eq_true]
  constructor
  · intro hall c hc
    have := hall c hc
    cases c with
    | none => simp at this
    | some f => exact ⟨f, rfl, this⟩
  · intro hall c hc
    obtain ⟨f, rfl, hf⟩ := hall c hc
    exact hf

theorem executeKeys_all_succeed {Val : Type} (X : Records Ty Fn Val) (ctx : Nat → Bool)
    (sourceKind : Ty) (transformFn : Option Fn) (hctx : ∀ n, ctx n = false)
    (hdec : ∀ raw, ∃ v, X.decode sourceKind raw = some v)
    (hcall : ∀ v, ∃ w, X.call transformFn v = .ok w)
    (henc : ∀ v, ∃ bytes, X.encode v = some bytes)
    (hput : ∀ d key bytes, ∃ d1, X.put d key bytes = some d1) :
    ∀ (entries : Datastore) (n : Nat) (dest : Datastore) (touched : List String),
      ∃ dest1, executeKeys X ctx sourceKind transformFn entries n dest touched =
        (dest1, touched ++ entries.map Prod.fst, none) := by
  intro entries
  induction entries with
  | nil => exact fun _ dest touched => ⟨dest, by simp [executeKeys]⟩
  | cons e rest ih =>
    intro n dest touched
    obtain ⟨key, raw⟩ := e
    obtain ⟨v, hv⟩ := hdec raw
    obtain ⟨w, hw⟩ := hcall v
    obtain ⟨bytes, hb⟩ := henc w
    obtain ⟨d1, hd⟩ := hput dest key bytes
    obtain ⟨dest1, hrest⟩ := ih (n + 1) d1 (touched ++ [key])
    exact ⟨dest1, by simp [executeKeys, hctx, hv, hw, hb, hd, hrest]⟩

theorem Up_touched_eq_processed {Val : Type} (X : Records Ty Fn Val) (ctx : Nat → Bool)
    (h : Heap) (m : DatastoreMigration Ty Fn) (oldDs newDS : Datastore)
    (hctx : ∀ n, ctx n = false)
    (hdec : ∀ raw, ∃ v, X.decode m.ds.oldType raw = some v)
    (hcall : ∀ v, ∃ w, X.call m.ds.upFunc v = .ok w)
    (henc : ∀ v, ∃ bytes, X.encode v = some bytes)
    (hput : ∀ d key bytes, ∃ d1, X.put d key bytes = some d1) :
    (m.Up X ctx h oldDs newDS).2 = (m.processed h oldDs, none) := by
  obtain ⟨dest1, hrun⟩ := executeKeys_all_succeed X ctx m.ds.oldType m.ds.upFunc hctx hdec
    hcall henc hput (m.ds.query.results h oldDs) 0 newDS []
  simp [DatastoreMigration.Up, dsMigration.Up, Execute, hrun, DatastoreMigration.processed]

theorem Build_mb (b : migrationBuilder Ty Fn) :
    ∃ m, (Builder.mb b).Build = (some m, none) ∧ ∀ h, m.filters h = h.read b.filters := by
  simp only [Builder.Build, migrationBuilder.Build]
  cases b.isReversible
  · exact ⟨_, rfl, fun _ => rfl⟩
  · exact ⟨_, rfl, fun _ => rfl⟩

theorem chain_valid_up (R : Reflect Ty Fn) (h : Heap) (up : Fn) (S D : Ty)
    (cs : List (Call Fn)) (hup : R.CheckMigration up = .ok (S, D))
    (hcs : ∀ c ∈ cs, c.isReversible = false) :
    ∃ h1 b m, Builder.chain R (h, NewMigrationBuilder R up) cs = (h1, .mb b) ∧
      (Builder.mb b).Build = (some m, none) ∧ m.filters h1 = chainClauses cs := by
  have hnew : NewMigrationBuilder R up = .mb ⟨S, D, some up, Slice.nil, false, none⟩ :=
    (NewMigrationBuilder_eq_mb R up _).2 ⟨S, D, hup, rfl⟩
  obtain ⟨h1, b, hch⟩ := chain_succeeds R S D cs h ⟨S, D, some up, Slice.nil, false, none⟩
    rfl rfl (fun down hd => by simpa [Call.isReversible] using hcs _ hd)
  rw [← hnew] at hch
  obtain ⟨_, _, _, _, hread, _⟩ := chain_new R h up cs h1 b hch
  obtain ⟨m, hm, hf⟩ := Build_mb b
  exact ⟨h1, b, m, hch, hm, by rw [hf, hread]⟩

/-- What `Only` does in the code: it appends one include-only clause per key, as `FilterKeys`
appends one exclude clause per key, and the clauses are a conjunction; so the migration
built by `NewMigrationBuilder(up).Only(ks).Build()` lets a key `k` of the source store
through only if every key of `ks` is `k`. -/
theorem only_processes_iff (R : Reflect Ty Fn) (h : Heap) (up : Fn) (S D : Ty)
    (ks : List String) (hup : R.CheckMigration up = .ok (S, D)) :
    ∃ m, ((NewMigrationBuilder R up).Only R h ks).2.Build = (some m, none) ∧
      ∀ (source : Datastore) (k : String), k ∈ source.map Prod.fst →
        (k ∈ m.processed ((NewMigrationBuilder R up).Only R h ks).1 source ↔ ∀ a ∈ ks, a = k) := by
  obtain ⟨h1, b, m, hch, hm, hread⟩ := chain_valid_up R h up S D [.Only ks] hup
    (by simp [Call.isReversible])
  have hch1 : (NewMigrationBuilder R up).Only R h ks = (h1, .mb b) := hch
  rw [hch1]
  refine ⟨m, hm, fun source k hk => ?_⟩
  rw [mem_processed, accepts_chainClauses h1 m _ k hread]
  simp only [hk, true_and, chainClauses, Call.clauses, List.append_nil, List.mem_map,
    forall_exists_index, and_imp, forall_apply_eq_imp_iff₂, Option.some.injEq, exists_eq_left',
    FilterKeyCompare.Filter, beq_iff_eq]
  exact ⟨fun hall a ha => (hall a ha).symm, fun hall a ha => (hall a ha).symm⟩

/-- C5 fails on the code: the migration built with `Only(["x","y"])` processes no key of a
store holding `x`, `y` and `z`, not even `x`, which is one of the keys given. `Only` is
`FilterKeys` with the operator changed to equality; the exclude clauses of `FilterKeys`
treat the key list as a set, but the conjunction of two include-only clauses for different
keys holds of no key. -/
theorem only_two_keys_processes_nothing :
    ∃ m, ((NewMigrationBuilder goReflect upV1V2).Only goReflect [] ["x", "y"]).2.Build = (some m, none) ∧
      "x" ∈ sourceXYZ.map Prod.fst ∧ "x" ∈ ["x", "y"] ∧
      m.processed ((NewMigrationBuilder goReflect upV1V2).Only goReflect [] ["x", "y"]).1 sourceXYZ = [] :=
  ⟨_, rfl, by decide, by decide, by decide⟩

/-- What `Only` followed by `FilterKeys` does in the code: the migration built by
`NewMigrationBuilder(up).Only(A).FilterKeys(B).Build()` lets a key `k` of the source store
through only if every key of `A` is `k` and `k` is not in `B`. -/
theorem only_filterKeys_processes_iff (R : Reflect Ty Fn) (h : Heap) (up : Fn) (S D : Ty)
    (A B : List String) (hup : R.CheckMigration up = .ok (S, D)) :
    ∃ m, (Builder.chain R (h, NewMigrationBuilder R up) [.Only A, .FilterKeys B]).2.Build
        = (some m, none) ∧
      ∀ (source : Datastore) (k : String), k ∈ source.map Prod.fst →
        (k ∈ m.processed
            (Builder.chain R (h, NewMigrationBuilder R up) [.Only A, .FilterKeys B]).1 source ↔
          (∀ a ∈ A, a = k) ∧ k ∉ B) := by
  obtain ⟨h1, b, m, hch, hm, hread⟩ := chain_valid_up R h up S D [.Only A, .FilterKeys B] hup
    (by simp [Call.isReversible])
  rw [hch]
  refine ⟨m, hm, fun source k hk => ?_⟩
  rw [mem_processed, accepts_chainClauses h1 m _ k hread]
  simp only [hk, true_and, chainClauses, Call.clauses, List.append_nil, List.mem_append,
    List.mem_map]
  constructor
  · intro hall
    refine ⟨fun a ha => ?_, fun hkB => ?_⟩
    · obtain ⟨f, hf, hk1⟩ := hall _ (Or.inl ⟨a, ha, rfl⟩)
      simp only [Option.some.injEq] at hf
      subst hf
      simp only [FilterKeyCompare.Filter, beq_iff_eq] at hk1
      exact hk1.symm
    · obtain ⟨f, hf, hk1⟩ := hall _ (Or.inr ⟨k, hkB, rfl⟩)
      simp only [Option.some.injEq] at hf
      subst hf
      simp [FilterKeyCompare.Filter] at hk1
  · rintro ⟨hA, hB⟩ c (⟨a, ha, rfl⟩ | ⟨b1, hb1, rfl⟩)
    · exact ⟨_, rfl, by simp [FilterKeyCompare.Filter, hA a ha]⟩
    · refine ⟨_, rfl, ?_⟩
      have : k ≠ b1 := fun hkb => hB (hkb ▸ hb1)
      simp [FilterKeyCompare.Filter, this]

/-- C6 fails on the code: the migration built with `Only(["x","y"]).FilterKeys(["y"])`
processes no key of a store holding `x`, `y` and `z`, not even `x`, which is in the first
list and not in the second. The cause is the one of C5: the include-only clauses that
`Only` appends for different keys hold together of no key. -/
theorem only_then_filterKeys_processes_nothing :
    ∃ m, (Builder.chain goReflect ([], NewMigrationBuilder goReflect upV1V2)
        [.Only ["x", "y"], .FilterKeys ["y"]]).2.Build = (some m, none) ∧
      "x" ∈ sourceXYZ.map Prod.fst ∧ "x" ∈ ["x", "y"] ∧ "x" ∉ ["y"] ∧
      m.processed (Builder.chain goReflect ([], NewMigrationBuilder goReflect upV1V2)
        [.Only ["x", "y"], .FilterKeys ["y"]]).1 sourceXYZ = [] :=
  ⟨_, rfl, by decide, by decide, by decide, by decide⟩

/-! ## Claims about the version-gated state store -/

/-- C1: when `ReadyError()` returns a non-nil error `e`, then for all arguments `Begin`
returns `e`, `Has` returns `(false, e)`, `List` returns `e` and `Get` returns the stand-in
handle holding exactly `e`; in each case the gated store, and with it the state of the
underlying state store and the log of calls made on it, is unchanged. -/
theorem not_ready_returns_error (U : StateStore σ V H E) (mss : migratedStateStore σ V H E)
    (e : E) (i state out : V) (hready : mss.ms.ReadyError = some e) :
    mss.Begin U i state = (mss, some e) ∧
      mss.Has U i = (mss, (false, some e)) ∧
      mss.List U out = (mss, some e) ∧
      mss.Get U i = (mss, .NotReadyStoredState e) := by
  simp [migratedStateStore.Begin, migratedStateStore.Has, migratedStateStore.List,
    migratedStateStore.Get, hready]

/-- C1, at a store that is not migrated: every operation returns the readiness error and
the log of calls on the underlying store stays empty. -/
theorem not_ready_returns_error_witness :
    (gatedListStore (some "not migrated")).ms.ReadyError = some "not migrated" ∧
      (gatedListStore (some "not migrated")).Begin listStore 1 7
        = (gatedListStore (some "not migrated"), some "not migrated") ∧
      (gatedListStore (some "not migrated")).Has listStore 1
        = (gatedListStore (some "not migrated"), (false, some "not migrated")) ∧
      (gatedListStore (some "not migrated")).List listStore 0
        = (gatedListStore (some "not migrated"), some "not migrated") ∧
      (gatedListStore (some "not migrated")).Get listStore 1
        = (gatedListStore (some "not migrated"), .NotReadyStoredState "not migrated") :=
  ⟨rfl, not_ready_returns_error listStore (gatedListStore (some "not migrated"))
    "not migrated" 1 7 0 rfl⟩

/-- C10: when `ReadyError()` returns nil, each of `Begin`, `Get`, `Has` and `List` of the
gated layer returns exactly what the same operation of the underlying state store returns
for the same arguments and leaves the store in the state that operation leaves it in; the
log of calls grows by exactly that one call with the arguments unchanged, and `Get` returns
the underlying handle itself. -/
theorem ready_delegates (U : StateStore σ V H E) (mss : migratedStateStore σ V H E)
    (i state out : V) (hready : mss.ms.ReadyError = none) :
    mss.Begin U i state =
        (⟨⟨(U.Begin mss.ss.state i state).1, mss.ss.calls ++ [.Begin i state]⟩, mss.ms⟩,
          (U.Begin mss.ss.state i state).2) ∧
      mss.Get U i =
        (⟨⟨(U.Get mss.ss.state i).1, mss.ss.calls ++ [.Get i]⟩, mss.ms⟩,
          .stored (U.Get mss.ss.state i).2) ∧
      mss.Has U i =
        (⟨⟨(U.Has mss.ss.state i).1, mss.ss.calls ++ [.Has i]⟩, mss.ms⟩,
          (U.Has mss.ss.state i).2) ∧
      mss.List U out =
        (⟨⟨(U.List mss.ss.state out).1, mss.ss.calls ++ [.List out]⟩, mss.ms⟩,
          (U.List mss.ss.state out).2) := by
  simp [migratedStateStore.Begin, migratedStateStore.Has, migratedStateStore.List,
    migratedStateStore.Get, TracedStore.Begin, TracedStore.Has, TracedStore.List,
    TracedStore.Get, hready]

/-- C10, at a migrated store: `Begin` of a name already tracked returns the underlying
store's own error, `Has` its answer, and `Get` the underlying handle; each is logged once. -/
theorem ready_delegates_witness :
    (gatedListStore none).Begin listStore 1 7 =
        (⟨⟨[(1, 10)], [.Begin 1 7]⟩, ⟨none⟩⟩, some "already tracking state") ∧
      (gatedListStore none).Get listStore 1 = (⟨⟨[(1, 10)], [.Get 1]⟩, ⟨none⟩⟩, .stored 1) ∧
      (gatedListStore none).Has listStore 1 =
        (⟨⟨[(1, 10)], [.Has 1]⟩, ⟨none⟩⟩, (true, none)) ∧
      (gatedListStore none).List listStore 0 = (⟨⟨[(1, 10)], [.List 0]⟩, ⟨none⟩⟩, none) :=
  ready_delegates listStore (gatedListStore none) 1 7 0 rfl

theorem step_handles_inv (U : StateStore σ V H E) (s : LayerState σ V H E)
    (ev : LayerEvent V E)
    (hinv : ∀ n hd, s.handles.get? n = some (hd, false) → ∃ e, hd = .NotReadyStoredState e) :
    ∀ n hd, (s.step U ev).handles.get? n = some (hd, false) →
      ∃ e, hd = .NotReadyStoredState e := by
  intro n hd hget
  cases ev with
  | Get i =>
    simp only [LayerState.step, List.get?_eq_getElem?] at hget
    by_cases hn : n < s.handles.length
    · rw [List.getElem?_append_left hn] at hget
      exact hinv n hd (by simpa using hget)
    · rw [List.getElem?_append_right (by omega)] at hget
      cases hr : s.mss.ms.ReadyError with
      | none =>
        cases hk : n - s.handles.length <;> simp [hr, hk] at hget
      | some e =>
        cases hk : n - s.handles.length with
        | zero =>
          simp [hr, hk, migratedStateStore.Get] at hget
          exact ⟨e, hget.symm⟩
        | succ k => simp [hk] at hget
  | Begin i state => exact hinv n hd hget
  | Has i => exact hinv n hd hget
  | List out => exact hinv n hd hget
  | SetReadyError r => exact hinv n hd hget
  | StoredEnd k =>
    simp only [LayerState.step] at hget
    split at hget <;> exact hinv n hd hget
  | StoredGet k out =>
    simp only [LayerState.step] at hget
    split at hget <;> exact hinv n hd hget
  | StoredMutate k mutator =>
    simp only [LayerState.step] at hget
    split at hget <;> exact hinv n hd hget

theorem gatedAtIssue_of_inv (U : StateStore σ V H E) (evs : List (LayerEvent V E)) :
    ∀ s : LayerState σ V H E,
      (∀ n hd, s.handles.get? n = some (hd, false) → ∃ e, hd = .NotReadyStoredState e) →
      LayerState.gatedAtIssue U s evs := by
  induction evs with
  | nil => exact fun _ _ => trivial
  | cons ev evs ih =>
    intro s hinv
    refine ⟨?_, ?_, ih _ (step_handles_inv U s ev hinv)⟩
    · intro _ hidx hnr
      obtain ⟨e, he⟩ := Option.ne_none_iff_exists'.1 hnr
      cases ev <;>
        simp [LayerState.reaches, LayerState.step, migratedStateStore.Begin,
          migratedStateStore.Get, migratedStateStore.Has, migratedStateStore.List, he,
          LayerEvent.handleIndex] at hidx ⊢
    · intro n hd hidx hget
      obtain ⟨e, rfl⟩ := hinv n hd hget
      cases ev <;> simp only [LayerEvent.handleIndex, Option.some.injEq] at hidx
      all_goals first
        | exact absurd hidx (by simp)
        | (subst hidx
           rw [List.get?_eq_getElem?] at hget
           simp [LayerState.reaches, LayerState.step, hget, StoredState.End, StoredState.Get,
             StoredState.Mutate])

/-- C7, as the code has it: along every sequence of layer operations, handle operations
and changes of readiness, starting from a client that holds no handle, no `Begin`, `Get`,
`Has` or `List` performed while `ReadyError()` is non-nil reaches the underlying state
store, and no `Get`, `Mutate` or `End`, whenever performed, on a handle that the layer's
`Get` returned while `ReadyError()` was non-nil reaches it. -/
theorem gated_at_issue (U : StateStore σ V H E) (mss : migratedStateStore σ V H E)
    (evs : List (LayerEvent V E)) :
    LayerState.gatedAtIssue U (LayerState.init mss) evs :=
  gatedAtIssue_of_inv U evs _ (by simp [LayerState.init])

/-- C7 fails as stated: a handle that the layer's `Get` returned while the state was ready
is the underlying handle itself; once the migration state is no longer ready, reading
through that handle still reaches the underlying state store. -/
theorem handle_issued_when_ready_bypasses_gate :
    ¬ LayerState.gated listStore (LayerState.init (gatedListStore none))
      [.Get 1, .SetReadyError (some "not migrated"), .StoredGet 0 0] := by
  simp [LayerState.gated, LayerState.reaches, LayerState.step, LayerState.init,
    gatedListStore, migratedStateStore.Get, TracedStore.Get, StoredState.Get,
    LayerEvent.isOperation]

/-! ## Further claims about the builder -/

/-- C11: a migration built by `NewMigrationBuilder(up).FilterKeys(ks).Build()` with no other
filter call processes a key `k` of the source store if and only if `k` is not one of the
keys in `ks`; with `ks` empty it processes every key of the source store. -/
theorem filterKeys_processes_iff (R : Reflect Ty Fn) (h : Heap) (up : Fn) (S D : Ty)
    (ks : List String) (hup : R.CheckMigration up = .ok (S, D)) :
    ∃ m, ((NewMigrationBuilder R up).FilterKeys R h ks).2.Build = (some m, none) ∧
      (∀ (source : Datastore) (k : String), k ∈ source.map Prod.fst →
        (k ∈ m.processed ((NewMigrationBuilder R up).FilterKeys R h ks).1 source ↔ k ∉ ks)) ∧
      (ks = [] → ∀ source : Datastore,
        m.processed ((NewMigrationBuilder R up).FilterKeys R h ks).1 source =
          source.map Prod.fst) := by
  obtain ⟨h1, b, m, hch, hm, hread⟩ := chain_valid_up R h up S D [.FilterKeys ks] hup
    (by simp [Call.isReversible])
  have hch1 : (NewMigrationBuilder R up).FilterKeys R h ks = (h1, .mb b) := hch
  rw [hch1]
  refine ⟨m, hm, fun source k hk => ?_, fun hks source => ?_⟩
  · rw [mem_processed, accepts_chainClauses h1 m _ k hread]
    simp only [hk, true_and, chainClauses, Call.clauses, List.append_nil, List.mem_map]
    constructor
    · intro hall hkB
      obtain ⟨f, hf, hk1⟩ := hall _ ⟨k, hkB, rfl⟩
      simp only [Option.some.injEq] at hf
      subst hf
      simp [FilterKeyCompare.Filter] at hk1
    · rintro hB c ⟨b1, hb1, rfl⟩
      refine ⟨_, rfl, ?_⟩
      have : k ≠ b1 := fun hkb => hB (hkb ▸ hb1)
      simp [FilterKeyCompare.Filter, this]
  · subst hks
    simp only [DatastoreMigration.filters, chainClauses, Call.clauses, List.map_nil,
      List.append_nil] at hread
    simp [DatastoreMigration.processed, Query.results, Query.accepts, hread]

/-- C11, at the key list `z`: the keys other than `z` are processed, and over a store with
the keys `x`, `y`, `z` these are `x` and `y`. -/
theorem filterKeys_processes_iff_witness :
    (∃ m, ((NewMigrationBuilder goReflect upV1V2).FilterKeys goReflect [] ["z"]).2.Build
        = (some m, none) ∧
      (∀ (source : Datastore) (k : String), k ∈ source.map Prod.fst →
        (k ∈ m.processed ((NewMigrationBuilder goReflect upV1V2).FilterKeys goReflect [] ["z"]).1 source ↔
          k ∉ ["z"])) ∧
      (["z"] = [] → ∀ source : Datastore,
        m.processed ((NewMigrationBuilder goReflect upV1V2).FilterKeys goReflect [] ["z"]).1 source =
          source.map Prod.fst)) ∧
    (∃ m, ((NewMigrationBuilder goReflect upV1V2).FilterKeys goReflect [] ["z"]).2.Build
        = (some m, none) ∧
      m.processed ((NewMigrationBuilder goReflect upV1V2).FilterKeys goReflect [] ["z"]).1 sourceXYZ =
        ["x", "y"]) :=
  ⟨filterKeys_processes_iff goReflect [] upV1V2 kindV1 kindV2 ["z"] rfl, _, rfl, by decide⟩

/-- C12, as the code has it: when `Reversible(down)` is called on a non-error builder and
`down` fails the shape check, the builder transitions to the captured-error state with the
error that the shape check returned, and `Build()` returns no migration and that error;
when `down` passes the shape check but the types fail the builder's inverse check, the
builder transitions to the captured-error state and `Build()` returns no migration and the
error "reversible function does not have inverse types". -/
theorem reversible_failure_is_captured (R : Reflect Ty Fn) (m : migrationBuilder Ty Fn)
    (down : Fn) :
    (∀ err, R.CheckMigration down = .error err →
      (Builder.mb m).Reversible R down = .eb ⟨err⟩ ∧
        ((Builder.mb m).Reversible R down).Build = (none, some err)) ∧
    (∀ A Rk, R.CheckMigration down = .ok (A, Rk) →
      (R.AssignableTo m.oldType Rk = false ∨ R.AssignableTo m.newType A = false) →
      (Builder.mb m).Reversible R down =
          .eb ⟨"reversible function does not have inverse types"⟩ ∧
        ((Builder.mb m).Reversible R down).Build =
          (none, some "reversible function does not have inverse types")) := by
  constructor
  · intro err hck
    simp [Builder.Reversible, migrationBuilder.Reversible, hck, Builder.Build,
      errorBuilder.Build]
  · intro A Rk hck hbad
    have hcond : (!R.AssignableTo m.oldType Rk || !R.AssignableTo m.newType A) = true := by
      rcases hbad with hb | hb <;> simp [hb]
    simp [Builder.Reversible, migrationBuilder.Reversible, hck, hcond, Builder.Build,
      errorBuilder.Build]

/-- C12, as the code has it, at a down-function of the wrong shape and at one of valid
shape that is not an inverse of `func(*V1) (*V2, error)`. -/
theorem reversible_failure_is_captured_witness :
    (goReflect.CheckMigration noArgs = .error "ConstructionError" ∧
      ((Builder.mb ⟨kindV1, kindV2, some upV1V2, Slice.nil, false, none⟩).Reversible
        goReflect noArgs).Build = (none, some "ConstructionError")) ∧
    (goReflect.CheckMigration downV1V1 = .ok (kindV1, kindV1) ∧
      ((Builder.mb ⟨kindV1, kindV2, some upV1V2, Slice.nil, false, none⟩).Reversible
        goReflect downV1V1).Build =
          (none, some "reversible function does not have inverse types")) :=
  ⟨⟨rfl, ((reversible_failure_is_captured goReflect
      ⟨kindV1, kindV2, some upV1V2, Slice.nil, false, none⟩ noArgs).1
        "ConstructionError" rfl).2⟩,
    ⟨rfl, ((reversible_failure_is_captured goReflect
      ⟨kindV1, kindV2, some upV1V2, Slice.nil, false, none⟩ downV1V1).2
        kindV1 kindV1 rfl (Or.inr (by decide))).2⟩⟩

/-- C12 fails as stated: for a down-function of the wrong shape, `Build()` returns the
error of the shape check, which is not "reversible function does not have inverse types". -/
theorem reversible_bad_shape_keeps_shape_error :
    ∃ m, NewMigrationBuilder goReflect upV1V2 = .mb m ∧
      goReflect.CheckMigration noArgs = .error "ConstructionError" ∧
      ((Builder.mb m).Reversible goReflect noArgs).Build = (none, some "ConstructionError") ∧
      ((Builder.mb m).Reversible goReflect noArgs).Build ≠
        (none, some "reversible function does not have inverse types") :=
  ⟨_, rfl, rfl, rfl, by decide⟩

theorem chain_downFunc (R : Reflect Ty Fn) (cs : List (Call Fn)) :
    ∀ (h : Heap) (m0 : migrationBuilder Ty Fn) (h1 : Heap) (b : migrationBuilder Ty Fn),
      Builder.chain R (h, .mb m0) cs = (h1, .mb b) →
      b.downFunc = match lastReversible cs with
        | some down => some down
        | none => m0.downFunc := by
  induction cs with
  | nil =>
    intro h m0 h1 b hch
    simp only [Builder.chain, List.foldl_nil, Prod.mk.injEq, Builder.mb.injEq] at hch
    obtain ⟨_, rfl⟩ := hch
    rfl
  | cons c cs ih =>
    intro h m0 h1 b hch
    rw [chain_cons] at hch
    simp only [lastReversible]
    cases c with
    | Reversible down =>
      simp only [Builder.call, Builder.Reversible] at hch
      cases hr : m0.Reversible R down with
      | eb e =>
        rw [hr, chain_eb] at hch
        simp at hch
      | mb m1 =>
        rw [hr] at hch
        obtain ⟨_, _, _, _, _, hm1⟩ := (Reversible_eq_mb R m0 m1 down).1 hr
        have := ih h m1 h1 b hch
        rw [this, hm1]
        cases lastReversible cs <;> simp [Call.down]
    | FilterKeys keys =>
      have := ih _ _ h1 b hch
      rw [this]
      cases lastReversible cs <;> simp [Call.down]
    | Only keys =>
      have := ih _ _ h1 b hch
      rw [this]
      cases lastReversible cs <;> simp [Call.down]

theorem lastReversible_of_any (cs : List (Call Fn))
    (hany : cs.any Call.isReversible = true) : ∃ down, lastReversible cs = some down := by
  induction cs with
  | nil => simp at hany
  | cons c cs ih =>
    simp only [lastReversible]
    cases hl : lastReversible cs with
    | some down => exact ⟨down, rfl⟩
    | none =>
      cases c with
      | Reversible down => exact ⟨down, rfl⟩
      | FilterKeys keys =>
        have : cs.any Call.isReversible = true := by simpa [Call.isReversible] using hany
        obtain ⟨down, hd⟩ := ih this
        rw [hl] at hd
        cases hd
      | Only keys =>
        have : cs.any Call.isReversible = true := by simpa [Call.isReversible] using hany
        obtain ⟨down, hd⟩ := ih this
        rw [hl] at hd
        cases hd

/-- C14: for a migration built from a chain that starts at `NewMigrationBuilder(up)`,
`Up(ctx, old, new)` is one executor run reading from `old` and writing to `new`, with the
built filter, decoding as the up-function's source kind and applying the up-function; if
the migration is reversible, `Down(ctx, new, old)` is one executor run with the identical
filter, reading from `new` and writing to `old`, decoding as the up-function's result kind
and applying the down-function of the last `Reversible` call of the chain. Each returns the
executor's result (store written, touched-key list, error) unchanged. -/
theorem up_down_are_executor_runs {Val : Type} (R : Reflect Ty Fn) (X : Records Ty Fn Val)
    (ctx : Nat → Bool) (h : Heap) (up : Fn) (cs : List (Call Fn)) (h1 : Heap)
    (b : migrationBuilder Ty Fn) (S D : Ty) (hup : R.CheckMigration up = .ok (S, D))
    (hch : Builder.chain R (h, NewMigrationBuilder R up) cs = (h1, .mb b)) :
    ∃ m, (Builder.mb b).Build = (some m, none) ∧ m.filters h1 = chainClauses cs ∧
      (∀ oldDs newDS,
        m.Up X ctx h1 oldDs newDS = Execute X ctx h1 m.ds.query oldDs newDS S (some up)) ∧
      (∀ rdm, m = .reversible rdm →
        ∃ down, lastReversible cs = some down ∧ rdm.query = m.ds.query ∧
          ∀ newDs oldDs,
            rdm.Down X ctx h1 newDs oldDs =
              Execute X ctx h1 m.ds.query newDs oldDs D (some down)) := by
  obtain ⟨oldType, newType, hck, _, hread, hold, hnew, hupf, hrev, _⟩ :=
    chain_new R h up cs h1 b hch
  rw [hup] at hck
  simp only [Except.ok.injEq, Prod.mk.injEq] at hck
  obtain ⟨rfl, rfl⟩ := hck
  have hnewb : NewMigrationBuilder R up = .mb ⟨S, D, some up, Slice.nil, false, none⟩ :=
    (NewMigrationBuilder_eq_mb R up _).2 ⟨S, D, hup, rfl⟩
  rw [hnewb] at hch
  have hdown := chain_downFunc R cs h _ h1 b hch
  simp only [Builder.Build, migrationBuilder.Build]
  cases hb : b.isReversible with
  | false =>
    refine ⟨_, rfl, by simpa [DatastoreMigration.filters, DatastoreMigration.ds] using hread,
      fun oldDs newDS => ?_, fun rdm hm => by simp at hm⟩
    simp [DatastoreMigration.Up, DatastoreMigration.ds, dsMigration.Up, hold, hupf]
  | true =>
    refine ⟨_, rfl, by simpa [DatastoreMigration.filters, DatastoreMigration.ds] using hread,
      fun oldDs newDS => ?_, fun rdm hm => ?_⟩
    · simp [DatastoreMigration.Up, DatastoreMigration.ds, dsMigration.Up, hold, hupf]
    · obtain ⟨down, hlast⟩ := lastReversible_of_any cs (by rw [← hrev, hb])
      rw [hlast] at hdown
      simp only [Bool.not_true, Bool.false_eq_true, ↓reduceIte,
        DatastoreMigration.reversible.injEq] at hm
      subst hm
      exact ⟨down, hlast, rfl, fun newDs oldDs => by
        simp [reversibleDsMigration.Down, DatastoreMigration.ds, hnew, hdown]⟩

/-- C14, at the chain `Reversible(other).Only(["a"]).Reversible(down)`: `Up` and `Down` of
the built migration are the executor runs with the up-function and with the last
down-function. -/
theorem up_down_are_executor_runs_witness :
    ∃ m, (Builder.chain goReflect ([], NewMigrationBuilder goReflect upV1V2)
        [.Reversible downV2Record, .Only ["a"], .Reversible downV2V1]).2.Build
        = (some m, none) ∧
      m.filters (Builder.chain goReflect ([], NewMigrationBuilder goReflect upV1V2)
        [.Reversible downV2Record, .Only ["a"], .Reversible downV2V1]).1 =
          chainClauses ([.Reversible downV2Record, .Only ["a"], .Reversible downV2V1] :
            List (Call GoFunc)) ∧
      (∀ oldDs newDS,
        m.Up valRecords background (Builder.chain goReflect
            ([], NewMigrationBuilder goReflect upV1V2)
            [.Reversible downV2Record, .Only ["a"], .Reversible downV2V1]).1 oldDs newDS =
          Execute valRecords background (Builder.chain goReflect
            ([], NewMigrationBuilder goReflect upV1V2)
            [.Reversible downV2Record, .Only ["a"], .Reversible downV2V1]).1
            m.ds.query oldDs newDS kindV1 (some upV1V2)) ∧
      (∀ rdm, m = .reversible rdm →
        ∃ down, lastReversible ([.Reversible downV2Record, .Only ["a"],
            .Reversible downV2V1] : List (Call GoFunc)) = some down ∧
          rdm.query = m.ds.query ∧
          ∀ newDs oldDs,
            rdm.Down valRecords background (Builder.chain goReflect
                ([], NewMigrationBuilder goReflect upV1V2)
                [.Reversible downV2Record, .Only ["a"], .Reversible downV2V1]).1 newDs oldDs =
              Execute valRecords background (Builder.chain goReflect
                ([], NewMigrationBuilder goReflect upV1V2)
                [.Reversible downV2Record, .Only ["a"], .Reversible downV2V1]).1
                m.ds.query newDs oldDs kindV2 (some down)) :=
  up_down_are_executor_runs goReflect valRecords background [] upV1V2
    [.Reversible downV2Record, .Only ["a"], .Reversible downV2V1] _ _ kindV1 kindV2 rfl rfl

/-- C15: each configuration call on a non-error builder changes only its own field.
`FilterKeys` and `Only` leave the source kind, the destination kind, the up-function, the
reversibility flag and the down-function unchanged; a successful `Reversible` leaves the
kinds, the up-function and the filter clause list (slice and heap) unchanged; so the kinds
and the up-function of a built migration are those inferred from the function passed to
`NewMigrationBuilder`; and `Reversible` commutes with `FilterKeys` and with `Only`: either
order ends in the same builder, hence builds the same migration, and when `Reversible`
succeeds also in the same heap. -/
theorem configuration_calls_frame (R : Reflect Ty Fn) (h : Heap) (m0 : migrationBuilder Ty Fn) :
    (∀ keys, ∃ b, (m0.FilterKeys R h keys).2 = .mb b ∧ b.oldType = m0.oldType ∧
      b.newType = m0.newType ∧ b.upFunc = m0.upFunc ∧ b.isReversible = m0.isReversible ∧
      b.downFunc = m0.downFunc) ∧
    (∀ keys, ∃ b, (m0.Only R h keys).2 = .mb b ∧ b.oldType = m0.oldType ∧
      b.newType = m0.newType ∧ b.upFunc = m0.upFunc ∧ b.isReversible = m0.isReversible ∧
      b.downFunc = m0.downFunc) ∧
    (∀ down b, m0.Reversible R down = .mb b → b.oldType = m0.oldType ∧
      b.newType = m0.newType ∧ b.upFunc = m0.upFunc ∧ b.filters = m0.filters ∧
      (Builder.call R (h, .mb m0) (.Reversible down)).1 = h) ∧
    (∀ up S D cs h1 b, R.CheckMigration up = .ok (S, D) →
      Builder.chain R (h, NewMigrationBuilder R up) cs = (h1, .mb b) →
      ∃ m, (Builder.mb b).Build = (some m, none) ∧ m.ds.oldType = S ∧ m.ds.newType = D ∧
        m.ds.upFunc = some up) ∧
    (∀ down keys,
      (Builder.chain R (h, .mb m0) [.Reversible down, .FilterKeys keys]).2 =
          (Builder.chain R (h, .mb m0) [.FilterKeys keys, .Reversible down]).2 ∧
        (Builder.chain R (h, .mb m0) [.Reversible down, .Only keys]).2 =
          (Builder.chain R (h, .mb m0) [.Only keys, .Reversible down]).2 ∧
        ((∃ b, m0.Reversible R down = .mb b) →
          Builder.chain R (h, .mb m0) [.Reversible down, .FilterKeys keys] =
              Builder.chain R (h, .mb m0) [.FilterKeys keys, .Reversible down] ∧
            Builder.chain R (h, .mb m0) [.Reversible down, .Only keys] =
              Builder.chain R (h, .mb m0) [.Only keys, .Reversible down])) := by
  refine ⟨fun keys => ⟨_, rfl, rfl, rfl, rfl, rfl, rfl⟩,
    fun keys => ⟨_, rfl, rfl, rfl, rfl, rfl, rfl⟩, ?_, ?_, ?_⟩
  · intro down b hb
    obtain ⟨_, _, _, _, _, rfl⟩ := (Reversible_eq_mb R m0 b down).1 hb
    exact ⟨rfl, rfl, rfl, rfl, rfl⟩
  · intro up S D cs h1 b hup hch
    obtain ⟨oldType, newType, hck, _, _, hold, hnew, hupf, _, _⟩ := chain_new R h up cs h1 b hch
    rw [hup] at hck
    simp only [Except.ok.injEq, Prod.mk.injEq] at hck
    obtain ⟨rfl, rfl⟩ := hck
    simp only [Builder.Build, migrationBuilder.Build]
    cases b.isReversible
    · exact ⟨_, rfl, hold, hnew, hupf⟩
    · exact ⟨_, rfl, hold, hnew, hupf⟩
  · intro down keys
    simp only [Builder.chain, List.foldl_cons, List.foldl_nil, Builder.call,
      Builder.Reversible, Builder.FilterKeys, Builder.Only, migrationBuilder.FilterKeys,
      migrationBuilder.Only]
    unfold migrationBuilder.Reversible
    cases hc : R.CheckMigration down with
    | error err => simp [Builder.FilterKeys, Builder.Only, errorBuilder.FilterKeys,
        errorBuilder.Only]
    | ok p =>
      obtain ⟨A, Rk⟩ := p
      cases h1 : R.AssignableTo m0.oldType Rk <;> cases h2 : R.AssignableTo m0.newType A <;>
        simp [h1, h2, Builder.FilterKeys, Builder.Only, errorBuilder.FilterKeys,
          errorBuilder.Only, migrationBuilder.FilterKeys, migrationBuilder.Only]

/-- C15, at a concrete builder: the kinds and the up-function of the migration built after
`FilterKeys(["a"]).Reversible(down)` are those of `up`, and the two orders of the calls end
in the same heap and builder. -/
theorem configuration_calls_frame_witness :
    (∃ m, (Builder.mb
        (⟨kindV1, kindV2, some upV1V2, ⟨0, 1, 1⟩, true, some downV2V1⟩ :
          migrationBuilder GoType GoFunc)).Build = (some m, none) ∧
      m.ds.oldType = kindV1 ∧ m.ds.newType = kindV2 ∧ m.ds.upFunc = some upV1V2) ∧
    (Builder.chain goReflect
        ([], .mb ⟨kindV1, kindV2, some upV1V2, Slice.nil, false, none⟩)
        [.Reversible downV2V1, .FilterKeys ["a"]] =
      Builder.chain goReflect
        ([], .mb ⟨kindV1, kindV2, some upV1V2, Slice.nil, false, none⟩)
        [.FilterKeys ["a"], .Reversible downV2V1]) :=
  ⟨(configuration_calls_frame goReflect []
      ⟨kindV1, kindV2, some upV1V2, Slice.nil, false, none⟩).2.2.2.1
      upV1V2 kindV1 kindV2 [.FilterKeys ["a"], .Reversible downV2V1] _ _ rfl rfl,
    (((configuration_calls_frame goReflect []
      ⟨kindV1, kindV2, some upV1V2, Slice.nil, false, none⟩).2.2.2.2
      downV2V1 ["a"]).2.2 ⟨_, rfl⟩).1⟩

/-! ## The round trip of a reversible migration -/

theorem executeKeys_transform {Val : Type} (X : Records Ty Fn Val) (ctx : Nat → Bool)
    (sourceKind : Ty) (transformFn : Option Fn) (hctx : ∀ n, ctx n = false)
    (hput : ∀ d key bytes, X.put d key bytes = some (Datastore.put d key bytes)) :
    ∀ (entries : Datastore) (n : Nat) (dest : Datastore) (touched : List String),
      (∀ e ∈ entries, ∃ bytes, transformBytes X sourceKind transformFn e.2 = some bytes) →
      executeKeys X ctx sourceKind transformFn entries n dest touched =
        (entries.foldl (fun d e => Datastore.put d e.1
            ((transformBytes X sourceKind transformFn e.2).getD [])) dest,
          touched ++ entries.map Prod.fst, none) := by
  intro entries
  induction entries with
  | nil => intro n dest touched _; simp [executeKeys]
  | cons e rest ih =>
    intro n dest touched hall
    obtain ⟨key, raw⟩ := e
    obtain ⟨bytes, hb⟩ := hall (key, raw) (List.mem_cons_self _ _)
    have hrest := ih (n + 1) (Datastore.put dest key bytes) (touched ++ [key])
      (fun e he => hall e (List.mem_cons_of_mem _ he))
    simp only [transformBytes] at hb
    cases hd : X.decode sourceKind raw with
    | none => simp [hd] at hb
    | some record =>
      cases hc : X.call transformFn record with
      | error cause => simp [hd, hc] at hb
      | ok migrated =>
        simp only [hd, hc] at hb
        simp [executeKeys, hctx, hd, hc, hb, hput, hrest, transformBytes]

theorem put_fresh (d : Datastore) (key : String) (bytes : Bytes)
    (hfresh : ∀ e ∈ d, e.1 ≠ key) : Datastore.put d key bytes = d ++ [(key, bytes)] := by
  have : d.any (fun e => e.1 == key) = false := by
    simp only [List.any_eq_false, beq_iff_eq]
    exact fun e he => hfresh e he
  simp [Datastore.put, this]

theorem foldl_put_fresh (g : String × Bytes → Bytes) :
    ∀ (entries dest : Datastore), (entries.map Prod.fst).Nodup →
      (∀ e ∈ entries, ∀ e1 ∈ dest, e1.1 ≠ e.1) →
      entries.foldl (fun d e => Datastore.put d e.1 (g e)) dest =
        dest ++ entries.map (fun e => (e.1, g e)) := by
  intro entries
  induction entries with
  | nil => intro dest _ _; simp
  | cons e rest ih =>
    intro dest hnd hdis
    simp only [List.map_cons, List.nodup_cons, List.mem_map, not_exists, not_and] at hnd
    rw [List.foldl_cons, put_fresh dest e.1 (g e) (hdis e (List.mem_cons_self _ _))]
    rw [ih _ hnd.2]
    · simp
    · intro e2 he2 e1 he1
      rcases List.mem_append.1 he1 with h1 | h1
      · exact hdis e2 (List.mem_cons_of_mem _ he2) e1 h1
      · simp only [List.mem_singleton] at h1
        subst h1
        exact fun heq => hnd.1 e2 he2 heq.symm

theorem results_nodup (h : Heap) (q : Query) (source : Datastore)
    (hnd : (source.map Prod.fst).Nodup) : ((q.results h source).map Prod.fst).Nodup :=
  hnd.sublist ((List.filter_sublist _).map _)

theorem results_self (h : Heap) (q : Query) (l : Datastore)
    (hall : ∀ e ∈ l, q.accepts h e.1 = true) : q.results h l = l := by
  simp only [Query.results, List.filter_eq_self]
  exact hall

theorem round_trip_entry {Val : Type} (X : Records Ty Fn Val)
    (rdm : reversibleDsMigration Ty Fn)
    (hinv : ∀ raw r, X.decode rdm.oldType raw = some r →
      ∃ r1, X.call rdm.upFunc r = .ok r1 ∧ X.call rdm.downFunc r1 = .ok r)
    (hcodecS : ∀ raw r, X.decode rdm.oldType raw = some r →
      ∃ bytes, X.encode r = some bytes ∧ X.decode rdm.oldType bytes = some r)
    (hcodecD : ∀ raw r r1, X.decode rdm.oldType raw = some r → X.call rdm.upFunc r = .ok r1 →
      ∃ bytes, X.encode r1 = some bytes ∧ X.decode rdm.newType bytes = some r1)
    (raw : Bytes) (r : Val) (hr : X.decode rdm.oldType raw = some r) :
    ∃ b1 b, transformBytes X rdm.oldType rdm.upFunc raw = some b1 ∧
      transformBytes X rdm.newType rdm.downFunc b1 = some b ∧
      X.decode rdm.oldType b = X.decode rdm.oldType raw := by
  obtain ⟨r1, hu, hd⟩ := hinv raw r hr
  obtain ⟨b1, he1, hd1⟩ := hcodecD raw r r1 hr hu
  obtain ⟨b, he, hdb⟩ := hcodecS raw r hr
  exact ⟨b1, b, by simp [transformBytes, hr, hu, he1], by simp [transformBytes, hd1, hd, he],
    by rw [hdb, hr]⟩

/-- The round trip over a store that enumerates keys in the order they were first written:
`Up` from the source store into an empty destination and then `Down` from that destination
into an empty store both succeed, return the same touched-key list (the keys of the source
that match the filter, in the source's order), and leave a store that holds, under exactly
those keys and in that order, the original records. -/
theorem round_trip_insertion_order {Val : Type} (X : Records Ty Fn Val) (ctx : Nat → Bool) (h : Heap)
    (rdm : reversibleDsMigration Ty Fn) (source : Datastore)
    (hctx : ∀ n, ctx n = false)
    (hput : ∀ d key bytes, X.put d key bytes = some (Datastore.put d key bytes))
    (hkeys : (source.map Prod.fst).Nodup)
    (hvalid : ∀ e ∈ source, ∃ r, X.decode rdm.oldType e.2 = some r)
    (hinv : ∀ raw r, X.decode rdm.oldType raw = some r →
      ∃ r1, X.call rdm.upFunc r = .ok r1 ∧ X.call rdm.downFunc r1 = .ok r)
    (hcodecS : ∀ raw r, X.decode rdm.oldType raw = some r →
      ∃ bytes, X.encode r = some bytes ∧ X.decode rdm.oldType bytes = some r)
    (hcodecD : ∀ raw r r1, X.decode rdm.oldType raw = some r → X.call rdm.upFunc r = .ok r1 →
      ∃ bytes, X.encode r1 = some bytes ∧ X.decode rdm.newType bytes = some r1) :
    ((DatastoreMigration.reversible rdm).Up X ctx h source []).2.2 = none ∧
      (rdm.Down X ctx h ((DatastoreMigration.reversible rdm).Up X ctx h source []).1 []).2.2
        = none ∧
      ((DatastoreMigration.reversible rdm).Up X ctx h source []).2.1 =
        (rdm.Down X ctx h ((DatastoreMigration.reversible rdm).Up X ctx h source []).1 []).2.1 ∧
      ((DatastoreMigration.reversible rdm).Up X ctx h source []).2.1 =
        (DatastoreMigration.reversible rdm).processed h source ∧
      List.Forall₂
        (fun e e1 => e1.1 = e.1 ∧ X.decode rdm.oldType e1.2 = X.decode rdm.oldType e.2)
        (rdm.query.results h source)
        (rdm.Down X ctx h ((DatastoreMigration.reversible rdm).Up X ctx h source []).1 []).1 := by
  have hres : ∀ e ∈ rdm.query.results h source,
      e ∈ source ∧ rdm.query.accepts h e.1 = true := by
    intro e he
    simpa [Query.results, List.mem_filter] using he
  have hentry : ∀ e ∈ rdm.query.results h source,
      ∃ b1 b, transformBytes X rdm.oldType rdm.upFunc e.2 = some b1 ∧
        transformBytes X rdm.newType rdm.downFunc b1 = some b ∧
        X.decode rdm.oldType b = X.decode rdm.oldType e.2 := by
    intro e he
    obtain ⟨r, hr⟩ := hvalid e (hres e he).1
    exact round_trip_entry X rdm hinv hcodecS hcodecD e.2 r hr
  have hup : (DatastoreMigration.reversible rdm).Up X ctx h source [] =
      ((rdm.query.results h source).map (fun e =>
          (e.1, (transformBytes X rdm.oldType rdm.upFunc e.2).getD [])),
        (rdm.query.results h source).map Prod.fst, none) := by
    simp only [DatastoreMigration.Up, DatastoreMigration.ds, dsMigration.Up, Execute]
    rw [executeKeys_transform X ctx _ _ hctx hput _ 0 [] []
      (fun e he => by obtain ⟨b1, _, h1, _⟩ := hentry e he; exact ⟨b1, h1⟩)]
    rw [foldl_put_fresh (fun e => (transformBytes X rdm.oldType rdm.upFunc e.2).getD []) _ []
      (results_nodup h _ source hkeys) (by simp)]
    simp
  have hmid : rdm.query.results h ((rdm.query.results h source).map (fun e =>
      (e.1, (transformBytes X rdm.oldType rdm.upFunc e.2).getD []))) =
      (rdm.query.results h source).map (fun e =>
        (e.1, (transformBytes X rdm.oldType rdm.upFunc e.2).getD [])) := by
    apply results_self
    intro e1 he1
    obtain ⟨e, he, rfl⟩ := List.mem_map.1 he1
    exact (hres e he).2
  have hdown : rdm.Down X ctx h ((rdm.query.results h source).map (fun e =>
        (e.1, (transformBytes X rdm.oldType rdm.upFunc e.2).getD []))) [] =
      ((rdm.query.results h source).map (fun e =>
          (e.1, (transformBytes X rdm.newType rdm.downFunc
            ((transformBytes X rdm.oldType rdm.upFunc e.2).getD [])).getD [])),
        (rdm.query.results h source).map Prod.fst, none) := by
    simp only [reversibleDsMigration.Down, Execute, hmid]
    rw [executeKeys_transform X ctx _ _ hctx hput _ 0 [] []
      (fun e1 he1 => by
        obtain ⟨e, he, rfl⟩ := List.mem_map.1 he1
        obtain ⟨b1, b, h1, h2, _⟩ := hentry e he
        exact ⟨b, by simpa [h1] using h2⟩)]
    rw [foldl_put_fresh (fun e1 => (transformBytes X rdm.newType rdm.downFunc e1.2).getD [])
      _ [] (by simpa [Function.comp_def] using results_nodup h _ source hkeys) (by simp)]
    simp [Function.comp_def]
  rw [hup]
  simp only [hdown]
  refine ⟨trivial, trivial, trivial, rfl, ?_⟩
  rw [List.forall₂_map_right_iff, List.forall₂_same]
  intro e he
  obtain ⟨b1, b, h1, h2, h3⟩ := hentry e he
  simp [h1, h2, h3]

theorem put_perm (d d1 : Datastore) (key : String) (bytes : Bytes) (hp : d.Perm d1) :
    (Datastore.put d key bytes).Perm (Datastore.put d1 key bytes) := by
  have hany : d.any (fun e => e.1 == key) = d1.any (fun e => e.1 == key) := by
    rw [Bool.eq_iff_iff]
    simp only [List.any_eq_true]
    exact ⟨fun ⟨e, he, hk⟩ => ⟨e, hp.mem_iff.1 he, hk⟩,
      fun ⟨e, he, hk⟩ => ⟨e, hp.mem_iff.2 he, hk⟩⟩
  unfold Datastore.put
  rw [hany]
  split
  · exact hp.map _
  · exact hp.append_right _

theorem foldl_put_perm (g : String × Bytes → Bytes) :
    ∀ (entries d d1 : Datastore), d.Perm d1 →
      (entries.foldl (fun acc e => Datastore.put acc e.1 (g e)) d).Perm
        (entries.foldl (fun acc e => Datastore.put acc e.1 (g e)) d1) := by
  intro entries
  induction entries with
  | nil => exact fun _ _ hp => hp
  | cons e rest ih => exact fun d d1 hp => ih _ _ (put_perm d d1 e.1 (g e) hp)

theorem executeKeys_transform_perm {Val : Type} (X : Records Ty Fn Val) (ctx : Nat → Bool)
    (sourceKind : Ty) (transformFn : Option Fn) (hctx : ∀ n, ctx n = false)
    (hput : ∀ d key bytes, ∃ d1, X.put d key bytes = some d1 ∧
      d1.Perm (Datastore.put d key bytes)) :
    ∀ (entries : Datastore) (n : Nat) (dest : Datastore) (touched : List String),
      (∀ e ∈ entries, ∃ bytes, transformBytes X sourceKind transformFn e.2 = some bytes) →
      ∃ dest1, executeKeys X ctx sourceKind transformFn entries n dest touched =
          (dest1, touched ++ entries.map Prod.fst, none) ∧
        dest1.Perm (entries.foldl (fun d e => Datastore.put d e.1
          ((transformBytes X sourceKind transformFn e.2).getD [])) dest) := by
  intro entries
  induction entries with
  | nil => intro n dest touched _; exact ⟨dest, by simp [executeKeys], List.Perm.refl _⟩
  | cons e rest ih =>
    intro n dest touched hall
    obtain ⟨key, raw⟩ := e
    obtain ⟨bytes, hb⟩ := hall (key, raw) (List.mem_cons_self _ _)
    obtain ⟨d1, hd1, hp1⟩ := hput dest key bytes
    obtain ⟨dest1, hrun, hperm⟩ := ih (n + 1) d1 (touched ++ [key])
      (fun e he => hall e (List.mem_cons_of_mem _ he))
    refine ⟨dest1, ?_, ?_⟩
    · simp only [transformBytes] at hb
      cases hd : X.decode sourceKind raw with
      | none => simp [hd] at hb
      | some record =>
        cases hc : X.call transformFn record with
        | error cause => simp [hd, hc] at hb
        | ok migrated =>
          simp only [hd, hc] at hb
          simp [executeKeys, hctx, hd, hc, hb, hd1, hrun]
    · refine hperm.trans ?_
      simp only [List.foldl_cons, hb, Option.getD_some]
      exact foldl_put_perm _ rest _ _ hp1

/-- C13, as the code has it: round trip. For a reversible migration whose down-function
undoes its up-function on every valid source-kind record, over a codec that decodes what it
encoded, stores whose writes succeed, a source store holding valid source-kind records
under distinct keys, and no cancellation: `Up` from the source store into an empty
destination and then `Down` from that destination into an empty store both succeed; `Up`
touches the keys of the source that match the filter, in the source's order; `Down`
touches the same keys, in the order in which the destination enumerates them, so its list
is a rearrangement of the list of `Up`; and the store that `Down` wrote holds, under
exactly those keys, the original records. If the stores enumerate keys in the order they
were first written, the two touched-key lists are the same list. -/
theorem round_trip_any_store {Val : Type} (X : Records Ty Fn Val) (ctx : Nat → Bool)
    (h : Heap) (rdm : reversibleDsMigration Ty Fn) (source : Datastore)
    (hctx : ∀ n, ctx n = false)
    (hput : ∀ d key bytes, ∃ d1, X.put d key bytes = some d1 ∧
      d1.Perm (Datastore.put d key bytes))
    (hkeys : (source.map Prod.fst).Nodup)
    (hvalid : ∀ e ∈ source, ∃ r, X.decode rdm.oldType e.2 = some r)
    (hinv : ∀ raw r, X.decode rdm.oldType raw = some r →
      ∃ r1, X.call rdm.upFunc r = .ok r1 ∧ X.call rdm.downFunc r1 = .ok r)
    (hcodecS : ∀ raw r, X.decode rdm.oldType raw = some r →
      ∃ bytes, X.encode r = some bytes ∧ X.decode rdm.oldType bytes = some r)
    (hcodecD : ∀ raw r r1, X.decode rdm.oldType raw = some r → X.call rdm.upFunc r = .ok r1 →
      ∃ bytes, X.encode r1 = some bytes ∧ X.decode rdm.newType bytes = some r1) :
    ((DatastoreMigration.reversible rdm).Up X ctx h source []).2.2 = none ∧
      (rdm.Down X ctx h ((DatastoreMigration.reversible rdm).Up X ctx h source []).1 []).2.2
        = none ∧
      ((DatastoreMigration.reversible rdm).Up X ctx h source []).2.1 =
        (DatastoreMigration.reversible rdm).processed h source ∧
      (rdm.Down X ctx h ((DatastoreMigration.reversible rdm).Up X ctx h source []).1 []).2.1.Perm
        ((DatastoreMigration.reversible rdm).Up X ctx h source []).2.1 ∧
      (∃ final : Datastore,
        (rdm.Down X ctx h
          ((DatastoreMigration.reversible rdm).Up X ctx h source []).1 []).1.Perm final ∧
        List.Forall₂
          (fun e e1 => e1.1 = e.1 ∧ X.decode rdm.oldType e1.2 = X.decode rdm.oldType e.2)
          (rdm.query.results h source) final) ∧
      ((∀ d key bytes, X.put d key bytes = some (Datastore.put d key bytes)) →
        (rdm.Down X ctx h ((DatastoreMigration.reversible rdm).Up X ctx h source []).1 []).2.1 =
            ((DatastoreMigration.reversible rdm).Up X ctx h source []).2.1 ∧
          List.Forall₂
            (fun e e1 => e1.1 = e.1 ∧ X.decode rdm.oldType e1.2 = X.decode rdm.oldType e.2)
            (rdm.query.results h source)
            (rdm.Down X ctx h
              ((DatastoreMigration.reversible rdm).Up X ctx h source []).1 []).1) := by
  have hres : ∀ e ∈ rdm.query.results h source,
      e ∈ source ∧ rdm.query.accepts h e.1 = true := by
    intro e he
    simpa [Query.results, List.mem_filter] using he
  have hentry : ∀ e ∈ rdm.query.results h source,
      ∃ b1 b, transformBytes X rdm.oldType rdm.upFunc e.2 = some b1 ∧
        transformBytes X rdm.newType rdm.downFunc b1 = some b ∧
        X.decode rdm.oldType b = X.decode rdm.oldType e.2 := by
    intro e he
    obtain ⟨r, hr⟩ := hvalid e (hres e he).1
    exact round_trip_entry X rdm hinv hcodecS hcodecD e.2 r hr
  have hnd := results_nodup h rdm.query source hkeys
  -- the run of `Up`
  obtain ⟨mid1, hup, hmid1⟩ := executeKeys_transform_perm X ctx rdm.oldType rdm.upFunc hctx
    hput (rdm.query.results h source) 0 [] []
    (fun e he => by obtain ⟨b1, _, h1, _⟩ := hentry e he; exact ⟨b1, h1⟩)
  rw [foldl_put_fresh (fun e => (transformBytes X rdm.oldType rdm.upFunc e.2).getD []) _ []
    hnd (by simp)] at hmid1
  simp only [List.nil_append] at hmid1 hup
  have hUp : (DatastoreMigration.reversible rdm).Up X ctx h source [] =
      (mid1, (rdm.query.results h source).map Prod.fst, none) := by
    simp only [DatastoreMigration.Up, DatastoreMigration.ds, dsMigration.Up, Execute, hup]
  have hmem : ∀ e1 ∈ mid1, ∃ e ∈ rdm.query.results h source,
      e1 = (e.1, (transformBytes X rdm.oldType rdm.upFunc e.2).getD []) := by
    intro e1 he1
    obtain ⟨e, he, rfl⟩ := List.mem_map.1 (hmid1.mem_iff.1 he1)
    exact ⟨e, he, rfl⟩
  have hself : rdm.query.results h mid1 = mid1 := by
    apply results_self
    intro e1 he1
    obtain ⟨e, he, rfl⟩ := hmem e1 he1
    exact (hres e he).2
  have hkeys1 : (mid1.map Prod.fst).Perm ((rdm.query.results h source).map Prod.fst) := by
    have := hmid1.map Prod.fst
    simpa [Function.comp_def] using this
  -- the run of `Down`
  obtain ⟨fin1, hdown, hfin1⟩ := executeKeys_transform_perm X ctx rdm.newType rdm.downFunc
    hctx hput mid1 0 [] []
    (fun e1 he1 => by
      obtain ⟨e, he, rfl⟩ := hmem e1 he1
      obtain ⟨b1, b, h1, h2, _⟩ := hentry e he
      exact ⟨b, by simpa [h1] using h2⟩)
  rw [foldl_put_fresh (fun e1 => (transformBytes X rdm.newType rdm.downFunc e1.2).getD []) _ []
    (hkeys1.nodup_iff.2 hnd) (by simp)] at hfin1
  simp only [List.nil_append] at hfin1 hdown
  have hDown : rdm.Down X ctx h mid1 [] = (fin1, mid1.map Prod.fst, none) := by
    simp only [reversibleDsMigration.Down, Execute, hself, hdown]
  refine ⟨by rw [hUp], by rw [hUp, hDown], by rw [hUp]; rfl, by rw [hUp, hDown]; exact hkeys1,
    ?_, ?_⟩
  · refine ⟨(rdm.query.results h source).map (fun e =>
        (e.1, (transformBytes X rdm.newType rdm.downFunc
          ((transformBytes X rdm.oldType rdm.upFunc e.2).getD [])).getD [])), ?_, ?_⟩
    · rw [hUp, hDown]
      refine hfin1.trans ?_
      have := hmid1.map (fun e1 : String × Bytes =>
        (e1.1, (transformBytes X rdm.newType rdm.downFunc e1.2).getD []))
      simpa [Function.comp_def] using this
    · rw [List.forall₂_map_right_iff, List.forall₂_same]
      intro e he
      obtain ⟨b1, b, h1, h2, h3⟩ := hentry e he
      simp [h1, h2, h3]
  · intro hexact
    have := round_trip_insertion_order X ctx h rdm source hctx hexact hkeys hvalid hinv
      hcodecS hcodecD
    exact ⟨this.2.2.1.symm, this.2.2.2.2⟩

/-- C13, as the code has it, at the scenario: records `a`, `b`, `c` with `val` 1, 2, 3, `up`
multiplying by 10 and `down` dividing by 10, over stores that keep the order of writing.
`Up` gives 10, 20, 30 with touched keys `a`, `b`, `c`, and `Down` gives back the original
three records with the same touched keys. -/
theorem round_trip_any_store_witness :
    (((DatastoreMigration.reversible scenarioMigration).Up valRecords background []
        sourceABC []).2.2 = none ∧
      (scenarioMigration.Down valRecords background []
        ((DatastoreMigration.reversible scenarioMigration).Up valRecords background []
          sourceABC []).1 []).2.2 = none ∧
      ((DatastoreMigration.reversible scenarioMigration).Up valRecords background []
        sourceABC []).2.1 =
        (DatastoreMigration.reversible scenarioMigration).processed [] sourceABC ∧
      (scenarioMigration.Down valRecords background []
        ((DatastoreMigration.reversible scenarioMigration).Up valRecords background []
          sourceABC []).1 []).2.1.Perm
        ((DatastoreMigration.reversible scenarioMigration).Up valRecords background []
          sourceABC []).2.1 ∧
      (∃ final : Datastore,
        (scenarioMigration.Down valRecords background []
          ((DatastoreMigration.reversible scenarioMigration).Up valRecords background []
            sourceABC []).1 []).1.Perm final ∧
        List.Forall₂
          (fun e e1 => e1.1 = e.1 ∧
            valRecords.decode scenarioMigration.oldType e1.2 =
              valRecords.decode scenarioMigration.oldType e.2)
          (scenarioMigration.query.results [] sourceABC) final) ∧
      ((∀ d key bytes, valRecords.put d key bytes = some (Datastore.put d key bytes)) →
        (scenarioMigration.Down valRecords background []
          ((DatastoreMigration.reversible scenarioMigration).Up valRecords background []
            sourceABC []).1 []).2.1 =
            ((DatastoreMigration.reversible scenarioMigration).Up valRecords background []
              sourceABC []).2.1 ∧
          List.Forall₂
            (fun e e1 => e1.1 = e.1 ∧
              valRecords.decode scenarioMigration.oldType e1.2 =
                valRecords.decode scenarioMigration.oldType e.2)
            (scenarioMigration.query.results [] sourceABC)
            (scenarioMigration.Down valRecords background []
              ((DatastoreMigration.reversible scenarioMigration).Up valRecords background []
                sourceABC []).1 []).1)) ∧
    (Builder.chain goReflect ([], NewMigrationBuilder goReflect upV1V2)
      [.Reversible downV2V1]).2.Build = (some (.reversible scenarioMigration), none) ∧
    (DatastoreMigration.reversible scenarioMigration).Up valRecords background []
      sourceABC [] = ([("a", [10]), ("b", [20]), ("c", [30])], ["a", "b", "c"], none) ∧
    scenarioMigration.Down valRecords background [] [("a", [10]), ("b", [20]), ("c", [30])] []
      = (sourceABC, ["a", "b", "c"], none) :=
  ⟨round_trip_any_store valRecords background [] scenarioMigration sourceABC (fun _ => rfl)
      (fun _ _ _ => ⟨_, rfl, List.Perm.refl _⟩) (by decide)
      (fun e he => by
        simp only [sourceABC, List.mem_cons, List.mem_singleton, List.not_mem_nil,
          or_false] at he
        rcases he with rfl | rfl | rfl <;> exact ⟨_, rfl⟩)
      (fun _ r _ => ⟨r * 10, by simp [valRecords, scenarioMigration, upV1V2],
        by simp [valRecords, scenarioMigration, downV2V1]⟩)
      (fun _ r _ => ⟨[r], rfl, rfl⟩)
      (fun _ _ r1 _ _ => ⟨[r1], rfl, rfl⟩),
    rfl, by decide, by decide⟩

theorem frontRecords_put_perm (d : Datastore) (key : String) (bytes : Bytes) :
    ∃ d1, frontRecords.put d key bytes = some d1 ∧ d1.Perm (Datastore.put d key bytes) := by
  refine ⟨_, rfl, ?_⟩
  unfold Datastore.put
  split
  · exact List.Perm.refl _
  · exact (List.perm_append_comm : ([(key, bytes)] ++ d).Perm (d ++ [(key, bytes)]))

/-- C13 fails as stated: over a store that enumerates the key written last first, with
`down(up(r)) = r` for every record, the scenario's `Up` touches `a`, `b`, `c` and the `Down`
that follows touches `c`, `b`, `a`; the records come back, but the two touched-key lists
are not the same list. -/
theorem round_trip_touched_lists_differ :
    (∀ r : Nat, frontRecords.call scenarioMigration.upFunc r = .ok (r * 10) ∧
      frontRecords.call scenarioMigration.downFunc (r * 10) = .ok r) ∧
    (DatastoreMigration.reversible scenarioMigration).Up frontRecords background []
      sourceABC [] = ([("c", [30]), ("b", [20]), ("a", [10])], ["a", "b", "c"], none) ∧
    scenarioMigration.Down frontRecords background [] [("c", [30]), ("b", [20]), ("a", [10])] []
      = ([("a", [1]), ("b", [2]), ("c", [3])], ["c", "b", "a"], none) ∧
    ((DatastoreMigration.reversible scenarioMigration).Up frontRecords background []
        sourceABC []).2.1 ≠
      (scenarioMigration.Down frontRecords background []
        ((DatastoreMigration.reversible scenarioMigration).Up frontRecords background []
          sourceABC []).1 []).2.1 :=
  ⟨fun r => ⟨by simp [frontRecords, valRecords, scenarioMigration, upV1V2],
      by simp [frontRecords, valRecords, scenarioMigration, downV2V1]⟩,
    by decide, by decide, by decide⟩

/-! ## The versioned state store -/

theorem gatedUntilMigrated_of_runner {D K M MF : Type} (W : Wiring D K M MF V H E)
    (p : migratedStateStorePtr K) (r : Runner K M MF) (evs : List (StoreEvent V)) :
    ∀ (migrated : Bool) (w : World D K M MF V H),
      w.runners.get? p.ms = some { r with ready := migrated } →
      gatedUntilMigrated W p ⟨p.ms⟩ r (W.New p.ss.ds) migrated w evs := by
  induction evs with
  | nil => exact fun _ _ _ => trivial
  | cons ev evs ih =>
    intro migrated w hw
    have hload : p.load W w = some ⟨⟨w.ds, w.calls⟩,
        ⟨if migrated then none else some (w.refusal W r)⟩⟩ := by
      simp only [migratedStateStorePtr.load, hw, Runner.ReadyError, World.refusal,
        Runner.current]
    cases ev with
    | Begin i state =>
      have hop : p.Begin W w i state =
          (if migrated then
            some (⟨((W.New p.ss.ds).Begin w.ds i state).1, w.runners,
                w.calls ++ [.Begin i state]⟩, ((W.New p.ss.ds).Begin w.ds i state).2)
          else some (w, some (w.refusal W r))) := by
        cases migrated <;>
          simp [migratedStateStorePtr.Begin, hload, migratedStateStore.Begin, TracedStore.Begin]
      refine ⟨hop, fun w1 res hres => ih migrated w1 ?_⟩
      rw [hop] at hres
      cases migrated <;> simp at hres <;> obtain ⟨rfl, _⟩ := hres <;> exact hw
    | Get i =>
      have hop : p.Get W w i =
          (if migrated then
            some (⟨((W.New p.ss.ds).Get w.ds i).1, w.runners, w.calls ++ [.Get i]⟩,
              .stored ((W.New p.ss.ds).Get w.ds i).2)
          else some (w, .NotReadyStoredState (w.refusal W r))) := by
        cases migrated <;>
          simp [migratedStateStorePtr.Get, hload, migratedStateStore.Get, TracedStore.Get]
      refine ⟨hop, fun w1 res hres => ih migrated w1 ?_⟩
      rw [hop] at hres
      cases migrated <;> simp at hres <;> obtain ⟨rfl, _⟩ := hres <;> exact hw
    | Has i =>
      have hop : p.Has W w i =
          (if migrated then
            some (⟨((W.New p.ss.ds).Has w.ds i).1, w.runners, w.calls ++ [.Has i]⟩,
              ((W.New p.ss.ds).Has w.ds i).2)
          else some (w, (false, some (w.refusal W r)))) := by
        cases migrated <;>
          simp [migratedStateStorePtr.Has, hload, migratedStateStore.Has, TracedStore.Has]
      refine ⟨hop, fun w1 res hres => ih migrated w1 ?_⟩
      rw [hop] at hres
      cases migrated <;> simp at hres <;> obtain ⟨rfl, _⟩ := hres <;> exact hw
    | List out =>
      have hop : p.List W w out =
          (if migrated then
            some (⟨((W.New p.ss.ds).List w.ds out).1, w.runners, w.calls ++ [.List out]⟩,
              ((W.New p.ss.ds).List w.ds out).2)
          else some (w, some (w.refusal W r))) := by
        cases migrated <;>
          simp [migratedStateStorePtr.List, hload, migratedStateStore.List, TracedStore.List]
      refine ⟨hop, fun w1 res hres => ih migrated w1 ?_⟩
      rw [hop] at hres
      cases migrated <;> simp at hres <;> obtain ⟨rfl, _⟩ := hres <;> exact hw
    | Migrate =>
      refine ⟨_, _, by simp only [MigrateFunc.call, hw]; rfl, ih _ _ ?_⟩
      have hlt : p.ms < w.runners.length := by
        by_contra hge
        rw [List.get?_eq_getElem?, List.getElem?_eq_none (by omega)] at hw
        cases hw
      simp [List.get?_eq_getElem?, List.getElem?_set, hlt, Runner.Migrate]

/-- C16: `NewVersionedStateStore(ds, migrations, target)` returns a gated store and a
migrate function that share one runner: both point to the same, newly allocated runner
object, built from exactly `ds`, `migrations`, `target` and `migrate.To`; the gated store
asks that runner's `ReadyError()` at every operation, the function is that runner's
`Migrate`, and the gated store's accessor is the state store over `ds` wrapped in the
namespace of the key made from `target`. So, along every sequence of operations of the
returned store and calls of the returned function, every operation is refused with the
runner's error, without touching the state store, until a call of the returned function
has migrated the store successfully; from then on the operations are those of the state
store. -/
theorem versioned_store_gated_until_migrated {D K M MF : Type}
    (W : Wiring D K M MF V H E) (w : World D K M MF V H)
    (migrations : List (VersionKey × M)) (target : VersionKey) (evs : List (StoreEvent V)) :
    (NewVersionedStateStore W w migrations target).2.1.ms =
        (NewVersionedStateStore W w migrations target).2.2.r ∧
      (NewVersionedStateStore W w migrations target).1.runners.get?
          (NewVersionedStateStore W w migrations target).2.2.r =
        some (NewRunner .root migrations target W.To) ∧
      (NewVersionedStateStore W w migrations target).1.runners.take w.runners.length =
        w.runners ∧
      (NewVersionedStateStore W w migrations target).2.1.ss =
        StateStorePtr.New (.Wrap .root (W.NewKey target)) ∧
      (NewVersionedStateStore W w migrations target).1.ds = w.ds ∧
      (NewVersionedStateStore W w migrations target).1.calls = w.calls ∧
      gatedUntilMigrated W (NewVersionedStateStore W w migrations target).2.1
        (NewVersionedStateStore W w migrations target).2.2
        (NewRunner .root migrations target W.To)
        (W.New (.Wrap .root (W.NewKey target))) false
        (NewVersionedStateStore W w migrations target).1 evs := by
  have haddr : (NewVersionedStateStore W w migrations target).1.runners.get?
      (NewVersionedStateStore W w migrations target).2.2.r =
      some (NewRunner .root migrations target W.To) := by
    simp [NewVersionedStateStore]
  refine ⟨rfl, haddr, by simp [NewVersionedStateStore], rfl, rfl, rfl, ?_⟩
  exact gatedUntilMigrated_of_runner W (NewVersionedStateStore W w migrations target).2.1
    (NewRunner .root migrations target W.To) evs false _ haddr

/-- C16, at a datastore without a marker, the versions 1 and 2 and the target 2: `Begin` is
refused and the log of calls stays empty; the returned function migrates the store; the
same `Begin` then reaches the state store, which answers that name 1 is tracked already. -/
theorem versioned_store_gated_until_migrated_witness :
    gatedUntilMigrated listWiring
        (NewVersionedStateStore listWiring listWorld [("1", ()), ("2", ())] "2").2.1
        (NewVersionedStateStore listWiring listWorld [("1", ()), ("2", ())] "2").2.2
        (NewRunner .root [("1", ()), ("2", ())] "2" listWiring.To)
        (listWiring.New (.Wrap .root (listWiring.NewKey "2"))) false
        (NewVersionedStateStore listWiring listWorld [("1", ()), ("2", ())] "2").1
        [.Begin 1 7, .Migrate, .Begin 1 7] ∧
      (NewVersionedStateStore listWiring listWorld [("1", ()), ("2", ())] "2").2.1.Begin
          listWiring
          (NewVersionedStateStore listWiring listWorld [("1", ()), ("2", ())] "2").1 1 7 =
        some (⟨(none, [(1, 10)]), [NewRunner .root [("1", ()), ("2", ())] "2" ()], []⟩,
          some "not migrated") ∧
      (NewVersionedStateStore listWiring listWorld [("1", ()), ("2", ())] "2").2.2.call
          listWiring
          (NewVersionedStateStore listWiring listWorld [("1", ()), ("2", ())] "2").1 =
        some (⟨(some "2", [(1, 10)]), [⟨.root, [("1", ()), ("2", ())], "2", (), true⟩], []⟩,
          none) ∧
      (NewVersionedStateStore listWiring listWorld [("1", ()), ("2", ())] "2").2.1.Begin
          listWiring
          ⟨(some "2", [(1, 10)]), [⟨.root, [("1", ()), ("2", ())], "2", (), true⟩], []⟩ 1 7 =
        some (⟨(some "2", [(1, 10)]), [⟨.root, [("1", ()), ("2", ())], "2", (), true⟩],
            [.Begin 1 7]⟩, some "already tracking state") :=
  ⟨(versioned_store_gated_until_migrated listWiring listWorld [("1", ()), ("2", ())] "2"
      [.Begin 1 7, .Migrate, .Begin 1 7]).2.2.2.2.2.2, rfl, rfl, rfl⟩

end Versioning
